/-
Verification of the baby_interpreter pipeline: a shallow embedding of
the bytecode generator (src/codegen.rs), the register virtual machine
(src/vm.rs) and the worklist abstract interpreter (src/comp_ai.rs),
together with proofs about the properties the specification states.

Modelling conventions:
* Rust `f64` numbers are modelled as `Int`.  Every numeric value that the
  verified properties manipulate is a small integer, on which `f64`
  arithmetic and formatting are exact, so the abstraction is faithful on
  the relevant domain.  (`Div` on two exact numbers is the only handler
  whose result can differ from IEEE semantics; no property below touches
  it.)
* Rust `u16`/`u8`/`usize` counters are modelled as `Nat`; no property
  involves programs anywhere near the wrap-around sizes.
* A Rust `panic!` (and `unwrap` of `None`) is modelled as an `Except`
  error carrying a constructor naming the panic site.
* `isize`/`usize` casts in the jump machinery are modelled exactly,
  with two's-complement wrapping where the source casts.
-/
import Mathlib

set_option maxHeartbeats 1000000

/-- 2 ^ 64, the usize modulus (written as a literal so it reduces instantly). -/
def usizeMod : Int := 18446744073709551616

/-- 2 ^ 63. -/
def isizeMax : Int := 9223372036854775808

/-- Rust `as usize` applied to an `isize` value: two's-complement wrap. -/
def isizeToUsize (i : Int) : Nat := (i % usizeMod).toNat

/-- Rust `as isize` applied to a `usize` value: two's-complement reinterpretation. -/
def usizeToIsize (n : Nat) : Int :=
  if (n : Int) < isizeMax then (n : Int) else (n : Int) - usizeMod

/-- Decimal textual form of a number (`v.to_string()` on an `f64` in the
source prints integral values without a decimal point, e.g. `"1"`). -/
def numToString (n : Int) : String := toString n

/-- Opcodes (codegen.rs `Instr`). -/
inductive Instr where
  | LoadI
  | LoadR
  | LoadP
  | LoadA
  | PushP
  | PushA
  | LoadC
  | Add
  | Sub
  | Mul
  | Div
  | CmpLT
  | CmpLE
  | CmpGT
  | CmpGE
  | CmpEq
  | JmpIf
  | Jmp
  | Call
  | Ret
  | Print
  deriving DecidableEq, Repr

/-- Runtime and encoding values (codegen.rs `Value`). -/
inductive Value where
  | Nil
  | Number (n : Int)
  | Bool (b : Bool)
  | StringLiteral (s : String)
  | Reg (r : Nat)
  | Pool (p : Nat)
  | CPool (c : Nat)
  | VAddr (a : Int)
  | Arg (a : Nat)
  deriving DecidableEq, Repr

/-- One slot of the flat heterogeneous bytecode stream (codegen.rs `BcArr`). -/
inductive BcArr where
  | I (i : Instr)
  | V (v : Value)
  deriving DecidableEq, Repr

/-- Scoping metadata entry (codegen.rs `Vars`). -/
structure Vars where
  name : String
  depth : Nat
  deriving DecidableEq, Repr

/-- Codegen output (codegen.rs `Program`).  The Rust `HashMap` for the
function list is modelled as an association list whose keys stay unique
because insertion is guarded by a containment check. -/
structure Program where
  bytecode : List BcArr
  entry_point : Nat
  function_list : List (String × Nat)
  const_pool : List Value
  deriving DecidableEq, Repr

/-- Token kinds (tokens.rs `TokenType`). -/
inductive TokenType where
  | Whitespace
  | OpenCurly
  | CloseCurly
  | OpenParen
  | CloseParen
  | Comma
  | Dot
  | Minus
  | Plus
  | SemiColon
  | Divide
  | Multiply
  | Not
  | NEqual
  | EqualSign
  | Equals
  | Greater
  | GreaterEq
  | Less
  | LessEq
  | Identifier
  | StringLiteral
  | Number
  | And
  | Else
  | False
  | Function
  | For
  | If
  | Nil
  | Or
  | Print
  | Return
  | This
  | True
  | Var
  | Let
  | While
  | Eof
  deriving DecidableEq, Repr

/-- Tokens (tokens.rs `Token`). -/
structure Token where
  t_type : TokenType
  value : String
  line_num : Nat
  deriving DecidableEq, Repr

/-- Logical operators (ast.rs `LogicalOp`). -/
inductive LogicalOp where
  | Or
  | And
  deriving DecidableEq, Repr

/-- Literals (ast.rs `Literal`). -/
inductive Literal where
  | Number (n : Int)
  | StringLiteral (s : String)
  | True
  | False
  | Nil
  deriving DecidableEq, Repr

/-- Expressions (ast.rs `Expr`). -/
inductive Expr where
  | Assignment (name : Token) (expr : Expr)
  | Binary (left : Expr) (op : Token) (right : Expr)
  | Call (callee : Expr) (arguments : List Expr)
  | Grouping (expr : Expr)
  | Literal (literal : Literal)
  | Logical (l_expr : Expr) (operator : LogicalOp) (r_expr : Expr)
  | Unary (op : Token) (right : Expr)
  | Variable (name : Token)

/-- Statements (ast.rs `Stmt`). -/
inductive Stmt where
  | Expression (e : Expr)
  | Variable (name : Token) (init : Option Expr)
  | Block (stmts : List Stmt)
  | Function (name : Token) (args : List Token) (code : List Stmt)
  | If (cond : Expr) (t : Stmt) (f : Option Stmt)
  | Return (e : Option Expr)
  | While (cond : Expr) (body : Stmt)
  | Print (e : Expr)

/-- Panic sites of codegen.rs, one constructor per distinct `panic!`/`unwrap`. -/
inductive CgErr where
  | entryPoint
  | unimplementedInstr
  | varNotFound
  | varRedeclared
  | fnRedeclared
  | fnUnknown
  | opNotSupported
  | literalNotImplemented
  | exprNotImplemented
  | callBadCallee
  | initializerMissing
  | poolPositionMissing
  deriving DecidableEq, Repr

/-- Codegen state (codegen.rs `Codegen`). -/
structure Codegen where
  bytecode : List BcArr
  const_pool : List Value
  const_counter : Nat
  function_list : List (String × Nat)
  reg_counter : Nat
  cur_depth : Nat
  pool : List Vars
  entry_point : Option Nat
  deriving DecidableEq, Repr

namespace Codegen

/-- The first step of codegen.rs `emit_instr`: fix the entry point on the
first instruction emitted outside of a function/block. -/
def entryFix (s : Codegen) : Codegen :=
  if s.cur_depth = 0 ∧ s.entry_point = none then
    { s with entry_point := some s.bytecode.length } else s

/-- codegen.rs `emit_instr`.  The source has one arm per opcode; arms with
identical bodies are grouped here.  The final arm is the source's
"Unimplemented Instruction" panic, reachable only for a `BcArr::V`. -/
def emit_instr (s0 : Codegen) (instr r1 r2 res : BcArr) : Except CgErr Codegen :=
  let s := entryFix s0
  match instr with
  | .I .LoadI | .I .LoadR | .I .LoadP | .I .LoadA
  | .I .PushP | .I .PushA | .I .LoadC =>
      .ok { s with bytecode := s.bytecode ++ [instr, res, r1] }
  | .I .Print =>
      .ok { s with bytecode := s.bytecode ++ [instr, r1] }
  | .I .Add | .I .Sub | .I .Mul | .I .Div
  | .I .CmpLT | .I .CmpLE | .I .CmpGT | .I .CmpGE | .I .CmpEq =>
      .ok { s with bytecode := s.bytecode ++ [instr, res, r1, r2] }
  | .I .Jmp | .I .JmpIf | .I .Call =>
      .ok { s with bytecode := s.bytecode ++ [instr, r1] }
  | .I .Ret =>
      .ok { s with bytecode := s.bytecode ++ [instr] }
  | .V _ => .error .unimplementedInstr

/-- codegen.rs `get_next_reg`. -/
def get_next_reg (s : Codegen) : Nat × Codegen :=
  (s.reg_counter, { s with reg_counter := s.reg_counter + 1 })

/-- codegen.rs `get_next_const`. -/
def get_next_const (s : Codegen) : Nat × Codegen :=
  (s.const_counter, { s with const_counter := s.const_counter + 1 })

/-- Rust `Iterator::position`: the index of the first element satisfying
the predicate. -/
def position (p : Vars → Bool) : List Vars → Option Nat
  | [] => none
  | v :: rest => if p v then some 0 else (position p rest).map (fun j => j + 1)

/-- codegen.rs `get_pool`: filter the pool by name, panic if no match,
take the maximal depth among matches, and return the position of the
first entry with that depth and name (both `unwrap`s are unreachable and
modelled as errors). -/
def get_pool (pool : List Vars) (name : String) : Except CgErr Nat :=
  let arr := pool.filter (fun v => v.name == name)
  if arr.isEmpty then .error .varNotFound
  else
    match (arr.map (fun v => v.depth)).max? with
    | none => .error .poolPositionMissing
    | some mx =>
      match position (fun v => v.depth == mx && v.name == name) pool with
      | some index => .ok index
      | none => .error .poolPositionMissing

/-- codegen.rs `clear_depth` (`Vec::retain`). -/
def clear_depth (pool : List Vars) (depth : Nat) : List Vars :=
  pool.filter (fun v => v.depth != depth)

/-- codegen.rs `register_function`. -/
def register_function (s : Codegen) (name : String) (pos : Nat) :
    Except CgErr Codegen :=
  if (s.function_list.lookup name).isSome then .error .fnRedeclared
  else .ok { s with function_list := (name, pos) :: s.function_list }

mutual

/-- codegen.rs `expression`: lower an expression, returning the register
holding its result.  (`res` starts at 0 in the source and is returned
unchanged by the `Assignment` and `Call` arms.) -/
def expression (e : Expr) (s : Codegen) : Except CgErr (Nat × Codegen) :=
  match e with
  | .Binary left op right =>
    match expression left s with
    | .error er => .error er
    | .ok (r1, s1) =>
      match expression right s1 with
      | .error er => .error er
      | .ok (r2, s2) =>
        let (res, s3) := get_next_reg s2
        match op.t_type with
        | .Plus =>
          (emit_instr s3 (.I .Add) (.V (.Reg r1)) (.V (.Reg r2))
            (.V (.Reg res))).map (fun s4 => (res, s4))
        | .Minus =>
          (emit_instr s3 (.I .Sub) (.V (.Reg r1)) (.V (.Reg r2))
            (.V (.Reg res))).map (fun s4 => (res, s4))
        | .Divide =>
          (emit_instr s3 (.I .Div) (.V (.Reg r1)) (.V (.Reg r2))
            (.V (.Reg res))).map (fun s4 => (res, s4))
        | .Multiply =>
          (emit_instr s3 (.I .Mul) (.V (.Reg r1)) (.V (.Reg r2))
            (.V (.Reg res))).map (fun s4 => (res, s4))
        | .Less =>
          (emit_instr s3 (.I .CmpLT) (.V (.Reg r1)) (.V (.Reg r2))
            (.V (.Reg res))).map (fun s4 => (res, s4))
        | .LessEq =>
          (emit_instr s3 (.I .CmpLE) (.V (.Reg r1)) (.V (.Reg r2))
            (.V (.Reg res))).map (fun s4 => (res, s4))
        | .Greater =>
          (emit_instr s3 (.I .CmpGT) (.V (.Reg r1)) (.V (.Reg r2))
            (.V (.Reg res))).map (fun s4 => (res, s4))
        | .GreaterEq =>
          (emit_instr s3 (.I .CmpGE) (.V (.Reg r1)) (.V (.Reg r2))
            (.V (.Reg res))).map (fun s4 => (res, s4))
        | .Equals =>
          (emit_instr s3 (.I .CmpEq) (.V (.Reg r1)) (.V (.Reg r2))
            (.V (.Reg res))).map (fun s4 => (res, s4))
        | _ => .error .opNotSupported
  | .Literal lit =>
    match lit with
    | .Number i =>
      let (res, s1) := get_next_reg s
      (emit_instr s1 (.I .LoadI) (.V (.Number i)) (.V .Nil)
        (.V (.Reg res))).map (fun s2 => (res, s2))
    | .StringLiteral str =>
      let s1 := { s with const_pool := s.const_pool ++ [Value.StringLiteral str] }
      let (const_index, s2) := get_next_const s1
      let (res, s3) := get_next_reg s2
      (emit_instr s3 (.I .LoadC) (.V (.CPool const_index)) (.V .Nil)
        (.V (.Reg res))).map (fun s4 => (res, s4))
    | _ => .error .literalNotImplemented
  | .Variable name =>
    match get_pool s.pool name.value with
    | .error er => .error er
    | .ok index =>
      let (res, s1) := get_next_reg s
      (emit_instr s1 (.I .LoadP) (.V (.Pool index)) (.V .Nil)
        (.V (.Reg res))).map (fun s2 => (res, s2))
  | .Grouping inner => expression inner s
  | .Assignment name rhs =>
    match expression rhs s with
    | .error er => .error er
    | .ok (register_index, s1) =>
      match get_pool s1.pool name.value with
      | .error er => .error er
      | .ok pool_index =>
        (emit_instr s1 (.I .PushP) (.V (.Reg register_index)) (.V .Nil)
          (.V (.Pool pool_index))).map (fun s2 => (0, s2))
  | .Call callee arguments =>
    match callee with
    | .Variable name =>
      match s.function_list.lookup name.value with
      | none => .error .fnUnknown
      | some pos =>
        match expression_args arguments 0 s with
        | .error er => .error er
        | .ok s1 =>
          (emit_instr s1 (.I .Call) (.V (.VAddr (pos : Int))) (.V .Nil)
            (.V .Nil)).map (fun s2 => (0, s2))
    | _ => .error .callBadCallee
  | .Logical _ _ _ => .error .exprNotImplemented
  | .Unary _ _ => .error .exprNotImplemented

/-- The argument loop of codegen.rs `expression`'s `Call` arm: lower each
argument and push it into its argument slot. -/
def expression_args (args : List Expr) (i : Nat) (s : Codegen) :
    Except CgErr Codegen :=
  match args with
  | [] => .ok s
  | a :: rest =>
    match expression a s with
    | .error er => .error er
    | .ok (register_index, s1) =>
      match emit_instr s1 (.I .PushA) (.V (.Reg register_index)) (.V .Nil)
          (.V (.Arg i)) with
      | .error er => .error er
      | .ok s2 => expression_args rest (i + 1) s2

end

/-- codegen.rs `assignment` (lowering of `Stmt::Variable`); a declaration
with no initializer hits the source's `expr.unwrap()` panic. -/
def assignment (name : Token) (expr : Option Expr) (s : Codegen) :
    Except CgErr (Nat × Codegen) :=
  match expr with
  | none => .error .initializerMissing
  | some e =>
    match expression e s with
    | .error er => .error er
    | .ok (ereg, s1) =>
      let var : Vars := ⟨name.value, s1.cur_depth⟩
      if var ∈ s1.pool then .error .varRedeclared
      else
        let s2 := { s1 with pool := s1.pool ++ [var] }
        match get_pool s2.pool name.value with
        | .error er => .error er
        | .ok index =>
          (emit_instr s2 (.I .PushP) (.V (.Reg ereg)) (.V .Nil)
            (.V (.Pool index))).map (fun s3 => (index, s3))

/-- codegen.rs `ret`: a `return e` lowers `e` and copies it into register 0
with `LoadR`; a bare `return` loads `Number(0.0)` into register 0. -/
def ret (expr : Option Expr) (s : Codegen) : Except CgErr Codegen :=
  match expr with
  | some e =>
    match expression e s with
    | .error er => .error er
    | .ok (v, s1) =>
      emit_instr s1 (.I .LoadR) (.V (.Reg v)) (.V .Nil) (.V (.Reg 0))
  | none =>
    emit_instr s (.I .LoadI) (.V (.Number 0)) (.V .Nil) (.V (.Reg 0))

/-- codegen.rs `print`. -/
def print (e : Expr) (s : Codegen) : Except CgErr Codegen :=
  match expression e s with
  | .error er => .error er
  | .ok (r, s1) =>
    emit_instr s1 (.I .Print) (.V (.Reg r)) (.V .Nil) (.V .Nil)

/-- The parameter loop of codegen.rs `function_decl`: push one pool entry
per parameter and emit a `LoadA` for it. -/
def declare_args (args : List Token) (i : Nat) (s : Codegen) :
    Except CgErr Codegen :=
  match args with
  | [] => .ok s
  | arg :: rest =>
    let s1 := { s with pool := s.pool ++ [⟨arg.value, s.cur_depth⟩] }
    match emit_instr s1 (.I .LoadA) (.V (.Arg i)) (.V .Nil)
        (.V (.Pool (s1.pool.length - 1))) with
    | .error er => .error er
    | .ok s2 => declare_args rest (i + 1) s2

mutual

/-- codegen.rs `interpret_node`.  The bodies of the statement-lowering
methods `block`, `if_stmt`, `while_stmt` and `function_decl` are inlined
into the corresponding arms (they form one mutual recursion with
`interpret_node` in the source). -/
def interpret_node (node : Stmt) (s : Codegen) : Except CgErr Codegen :=
  match node with
  | .Function n args code =>
    -- codegen.rs `function_decl`
    let tmp_reg := s.reg_counter
    let pos := s.bytecode.length
    match register_function s n.value pos with
    | .error er => .error er
    | .ok s1 =>
      let s2 := { s1 with cur_depth := s1.cur_depth + 1 }
      match declare_args args 0 s2 with
      | .error er => .error er
      | .ok s3 =>
        let s4 := { s3 with cur_depth := s3.cur_depth - 1 }
        -- self.block(code)
        let s5 := { s4 with cur_depth := s4.cur_depth + 1 }
        match interpret_list code s5 with
        | .error er => .error er
        | .ok s6 =>
          let s7 := { s6 with pool := clear_depth s6.pool s6.cur_depth,
                              cur_depth := s6.cur_depth - 1 }
          let s8 := { s7 with cur_depth := s7.cur_depth + 1 }
          match emit_instr s8 (.I .Ret) (.V .Nil) (.V .Nil) (.V .Nil) with
          | .error er => .error er
          | .ok s9 =>
            .ok { s9 with cur_depth := s9.cur_depth - 1, reg_counter := tmp_reg }
  | .Expression e => (expression e s).map (fun p => p.2)
  | .Variable n e => (assignment n e s).map (fun p => p.2)
  | .Block stmts =>
    -- codegen.rs `block`
    let s1 := { s with cur_depth := s.cur_depth + 1 }
    match interpret_list stmts s1 with
    | .error er => .error er
    | .ok s2 =>
      .ok { s2 with pool := clear_depth s2.pool s2.cur_depth,
                    cur_depth := s2.cur_depth - 1 }
  | .If e t f =>
    -- codegen.rs `if_stmt`
    match expression e s with
    | .error er => .error er
    | .ok (_, s1) =>
      let tmp := s1.reg_counter
      let offset1 := s1.bytecode.length + 1
      match emit_instr s1 (.I .JmpIf) (.V (.VAddr 0)) (.V .Nil) (.V .Nil) with
      | .error er => .error er
      | .ok s2 =>
        match interpret_opt f s2 with
        | .error er => .error er
        | .ok s3 =>
          let offset2 := s3.bytecode.length + 1
          match emit_instr s3 (.I .Jmp) (.V (.VAddr 0)) (.V .Nil) (.V .Nil) with
          | .error er => .error er
          | .ok s4 =>
            let jmp_1 : Int := ((s4.bytecode.length - offset1 - 1 : Nat) : Int)
            let s5 := { s4 with reg_counter := tmp }
            match interpret_node t s5 with
            | .error er => .error er
            | .ok s6 =>
              let jmp_2 : Int := ((s6.bytecode.length - offset2 - 1 : Nat) : Int)
              let s7 := { s6 with
                bytecode := s6.bytecode.set offset1 (.V (.VAddr jmp_1)) }
              .ok { s7 with
                bytecode := s7.bytecode.set offset2 (.V (.VAddr jmp_2)) }
  | .Return e => ret e s
  | .While e b =>
    -- codegen.rs `while_stmt`.  `jmp2` is an isize in the source, computed
    -- by a usize subtraction and cast; exact Int subtraction models it.
    let tmp_reg := s.reg_counter
    let offset := s.bytecode.length + 1
    match emit_instr s (.I .Jmp) (.V (.VAddr 0)) (.V .Nil) (.V .Nil) with
    | .error er => .error er
    | .ok s1 =>
      match interpret_node b s1 with
      | .error er => .error er
      | .ok s2 =>
        let s2r := { s2 with reg_counter := tmp_reg }
        match expression e s2r with
        | .error er => .error er
        | .ok (_, s3) =>
          let jmp1 : Int := ((s3.bytecode.length - offset + 1 : Nat) : Int)
          match emit_instr s3 (.I .JmpIf) (.V (.VAddr (-jmp1))) (.V .Nil)
              (.V .Nil) with
          | .error er => .error er
          | .ok s4 =>
            let jmp2 : Int := (s4.bytecode.length : Int) - (offset : Int) - 13
            .ok { s4 with bytecode := s4.bytecode.set offset (.V (.VAddr jmp2)) }
  | .Print e => print e s

/-- The `if let Some(x) = f { self.interpret_node(&*x); }` of codegen.rs
`if_stmt`. -/
def interpret_opt (f : Option Stmt) (s : Codegen) : Except CgErr Codegen :=
  match f with
  | some x => interpret_node x s
  | none => .ok s

/-- The statement loops of codegen.rs (`bytecode_gen`'s top-level loop and
`block`'s body loop). -/
def interpret_list (nodes : List Stmt) (s : Codegen) : Except CgErr Codegen :=
  match nodes with
  | [] => .ok s
  | n :: rest =>
    match interpret_node n s with
    | .error er => .error er
    | .ok s1 => interpret_list rest s1

end

/-- codegen.rs `bytecode_gen`: lower every top-level statement, then fail
unless an entry point was fixed. -/
def bytecode_gen (ast : List Stmt) : Except CgErr Program :=
  let codegen : Codegen :=
    { bytecode := [], const_pool := [], const_counter := 0,
      function_list := [], reg_counter := 1, cur_depth := 0,
      pool := [], entry_point := none }
  match interpret_list ast codegen with
  | .error er => .error er
  | .ok c =>
    match c.entry_point with
    | some v =>
      .ok { bytecode := c.bytecode, entry_point := v,
            function_list := c.function_list, const_pool := c.const_pool }
    | none => .error .entryPoint

end Codegen

/-- Panic sites of vm.rs, one constructor per distinct panic (the
`TypeError` constructors carry the reported IP), plus the fuel marker of
the model's step-indexed run loop. -/
inductive VmErr where
  | fetchOutOfBounds
  | unpackMismatch
  | regReadOutOfBounds
  | poolReadOutOfBounds
  | argReadOutOfBounds
  | constReadOutOfBounds
  | emptyCallStack
  | printTypeError (ip : Nat)
  | addTypeError (ip : Nat)
  | subTypeError (ip : Nat)
  | mulTypeError (ip : Nat)
  | divTypeError (ip : Nat)
  | cmpLTTypeError (ip : Nat)
  | cmpLETypeError (ip : Nat)
  | cmpGTTypeError (ip : Nat)
  | cmpGETypeError (ip : Nat)
  | cmpEqTypeError (ip : Nat)
  | unimplementedInstr (ip : Nat)
  | outOfFuel
  deriving DecidableEq, Repr

/-- VM state (vm.rs `Interpreter`), extended with the `output` trace that
records every line the source sends to stdout with `println!`.  The
`call_stack` Vec is used as a stack (push/pop at the growing end); it is
modelled with the list head as the stack top. -/
structure Interpreter where
  bytecode : List BcArr
  ip : Nat
  regs : List Value
  local_pool : List Value
  function_list : List (String × Nat)
  const_pool : List Value
  args : List Value
  call_stack : List Nat
  flag : Bool
  output : List String
  deriving DecidableEq, Repr

namespace Interpreter

/-- vm.rs `fetch_val`: read the slot at `ip` and advance (a Rust index
panic past the end becomes an error). -/
def fetch_val (s : Interpreter) : Except VmErr (BcArr × Interpreter) :=
  match s.bytecode.get? s.ip with
  | some v => .ok (v, { s with ip := s.ip + 1 })
  | none => .error .fetchOutOfBounds

/-- vm.rs `unpack_register` (`extract_enum_value!` panics on mismatch). -/
def unpack_register (b : BcArr) : Except VmErr Nat :=
  match b with
  | .V (.Reg c) => .ok c
  | _ => .error .unpackMismatch

/-- vm.rs `unpack_value`. -/
def unpack_value (b : BcArr) : Except VmErr Value :=
  match b with
  | .V c => .ok c
  | _ => .error .unpackMismatch

/-- vm.rs `unpack_pool`. -/
def unpack_pool (b : BcArr) : Except VmErr Nat :=
  match b with
  | .V (.Pool c) => .ok c
  | _ => .error .unpackMismatch

/-- vm.rs `unpack_vaddr`: the stored isize is cast to usize. -/
def unpack_vaddr (b : BcArr) : Except VmErr Nat :=
  match b with
  | .V (.VAddr c) => .ok (isizeToUsize c)
  | _ => .error .unpackMismatch

/-- vm.rs `unpack_arg`. -/
def unpack_arg (b : BcArr) : Except VmErr Nat :=
  match b with
  | .V (.Arg c) => .ok c
  | _ => .error .unpackMismatch

/-- vm.rs `unpack_cpool`. -/
def unpack_cpool (b : BcArr) : Except VmErr Nat :=
  match b with
  | .V (.CPool c) => .ok c
  | _ => .error .unpackMismatch

/-- vm.rs `check_num`. -/
def check_num (v : Value) : Bool :=
  match v with
  | .Number _ => true
  | _ => false

/-- vm.rs `check_str`. -/
def check_str (v : Value) : Bool :=
  match v with
  | .StringLiteral _ => true
  | _ => false

/-- vm.rs `register_insert`: overwrite in place when the index is inside
the register file, otherwise push at the end. -/
def register_insert (regs : List Value) (regid : Nat) (val : Value) :
    List Value :=
  if regs.length > regid then regs.set regid val else regs ++ [val]

/-- vm.rs `pool_insert`: same grow-or-overwrite discipline for the local
pool. -/
def pool_insert (local_pool : List Value) (index : Nat) (val : Value) :
    List Value :=
  if local_pool.length > index then local_pool.set index val
  else local_pool ++ [val]

/-- vm.rs `args_insert`: same discipline for the argument pool. -/
def args_insert (args : List Value) (index : Nat) (val : Value) :
    List Value :=
  if args.length > index then args.set index val else args ++ [val]

/-- The `unpack_register(self.fetch_val())` composition that begins every
register-operand handler in vm.rs. -/
def fetch_register (s : Interpreter) : Except VmErr (Nat × Interpreter) :=
  match fetch_val s with
  | .error er => .error er
  | .ok (b, s1) =>
    match unpack_register b with
    | .error er => .error er
    | .ok r => .ok (r, s1)

/-- vm.rs `loadi`. -/
def loadi (s : Interpreter) : Except VmErr Interpreter :=
  match fetch_val s with
  | .error er => .error er
  | .ok (reg, s1) =>
    match fetch_val s1 with
    | .error er => .error er
    | .ok (v, s2) =>
      match unpack_register reg with
      | .error er => .error er
      | .ok register_index =>
        match unpack_value v with
        | .error er => .error er
        | .ok val =>
          .ok { s2 with regs := register_insert s2.regs register_index val }

/-- vm.rs `loadr`. -/
def loadr (s : Interpreter) : Except VmErr Interpreter :=
  match fetch_register s with
  | .error er => .error er
  | .ok (dst_index, s1) =>
    match fetch_register s1 with
    | .error er => .error er
    | .ok (src_index, s2) =>
      match s2.regs.get? src_index with
      | none => .error .regReadOutOfBounds
      | some val =>
        .ok { s2 with regs := register_insert s2.regs dst_index val }

/-- vm.rs `pushp`. -/
def pushp (s : Interpreter) : Except VmErr Interpreter :=
  match fetch_val s with
  | .error er => .error er
  | .ok (pool, s1) =>
    match fetch_val s1 with
    | .error er => .error er
    | .ok (reg, s2) =>
      match unpack_register reg with
      | .error er => .error er
      | .ok register_index =>
        match unpack_pool pool with
        | .error er => .error er
        | .ok pool_index =>
          match s2.regs.get? register_index with
          | none => .error .regReadOutOfBounds
          | some val =>
            .ok { s2 with local_pool := pool_insert s2.local_pool pool_index val }

/-- vm.rs `pusha`. -/
def pusha (s : Interpreter) : Except VmErr Interpreter :=
  match fetch_val s with
  | .error er => .error er
  | .ok (arg, s1) =>
    match fetch_val s1 with
    | .error er => .error er
    | .ok (reg, s2) =>
      match unpack_register reg with
      | .error er => .error er
      | .ok register_index =>
        match unpack_arg arg with
        | .error er => .error er
        | .ok args_index =>
          match s2.regs.get? register_index with
          | none => .error .regReadOutOfBounds
          | some val =>
            .ok { s2 with args := args_insert s2.args args_index val }

/-- vm.rs `loadp`. -/
def loadp (s : Interpreter) : Except VmErr Interpreter :=
  match fetch_val s with
  | .error er => .error er
  | .ok (reg, s1) =>
    match fetch_val s1 with
    | .error er => .error er
    | .ok (pool, s2) =>
      match unpack_register reg with
      | .error er => .error er
      | .ok register_index =>
        match unpack_pool pool with
        | .error er => .error er
        | .ok pool_index =>
          match s2.local_pool.get? pool_index with
          | none => .error .poolReadOutOfBounds
          | some val =>
            .ok { s2 with regs := register_insert s2.regs register_index val }

/-- vm.rs `loada`. -/
def loada (s : Interpreter) : Except VmErr Interpreter :=
  match fetch_val s with
  | .error er => .error er
  | .ok (pool, s1) =>
    match fetch_val s1 with
    | .error er => .error er
    | .ok (arg, s2) =>
      match unpack_pool pool with
      | .error er => .error er
      | .ok pool_index =>
        match unpack_arg arg with
        | .error er => .error er
        | .ok arg_index =>
          match s2.args.get? arg_index with
          | none => .error .argReadOutOfBounds
          | some val =>
            .ok { s2 with local_pool := pool_insert s2.local_pool pool_index val }

/-- vm.rs `loadc`. -/
def loadc (s : Interpreter) : Except VmErr Interpreter :=
  match fetch_val s with
  | .error er => .error er
  | .ok (reg, s1) =>
    match fetch_val s1 with
    | .error er => .error er
    | .ok (cpool, s2) =>
      match unpack_register reg with
      | .error er => .error er
      | .ok register_index =>
        match unpack_cpool cpool with
        | .error er => .error er
        | .ok cpool_index =>
          match s2.const_pool.get? cpool_index with
          | none => .error .constReadOutOfBounds
          | some val =>
            .ok { s2 with regs := register_insert s2.regs register_index val }

/-- vm.rs `jmp_if`: consume the offset operand, then add it to the
post-operand IP when the flag is set. -/
def jmp_if (s : Interpreter) : Except VmErr Interpreter :=
  match fetch_val s with
  | .error er => .error er
  | .ok (b, s1) =>
    match unpack_vaddr b with
    | .error er => .error er
    | .ok offNat =>
      let offset : Int := usizeToIsize offNat
      if s1.flag then
        .ok { s1 with ip := isizeToUsize ((s1.ip : Int) + offset) }
      else .ok s1

/-- vm.rs `jmp`. -/
def jmp (s : Interpreter) : Except VmErr Interpreter :=
  match fetch_val s with
  | .error er => .error er
  | .ok (b, s1) =>
    match unpack_vaddr b with
    | .error er => .error er
    | .ok offNat =>
      let offset : Int := usizeToIsize offNat
      .ok { s1 with ip := isizeToUsize ((s1.ip : Int) + offset) }

/-- vm.rs `function_call`: push the index just past the operand, then set
the IP to the target. -/
def function_call (s : Interpreter) : Except VmErr Interpreter :=
  let s0 := { s with call_stack := (s.ip + 1) :: s.call_stack }
  match fetch_val s0 with
  | .error er => .error er
  | .ok (b, s1) =>
    match unpack_vaddr b with
    | .error er => .error er
    | .ok target => .ok { s1 with ip := target }

/-- vm.rs `ret`: pop the return address (`unwrap` panics when empty). -/
def ret (s : Interpreter) : Except VmErr Interpreter :=
  match s.call_stack with
  | [] => .error .emptyCallStack
  | a :: rest => .ok { s with ip := a, call_stack := rest }

/-- vm.rs `print`: the `println!` side effects are recorded in `output`. -/
def print (s : Interpreter) : Except VmErr Interpreter :=
  match fetch_register s with
  | .error er => .error er
  | .ok (register_index, s1) =>
    match s1.regs.get? register_index with
    | none => .error .regReadOutOfBounds
    | some val =>
      match val with
      | .Number v => .ok { s1 with output := s1.output ++ [numToString v] }
      | .StringLiteral v => .ok { s1 with output := s1.output ++ [v] }
      | .Bool v =>
        .ok { s1 with output := s1.output ++ [if v then "true" else "false"] }
      | .Nil => .ok { s1 with output := s1.output ++ ["NIL"] }
      | _ => .error (.printTypeError s1.ip)

/-- vm.rs `add`: the source's `check_num`/`check_str` if-chain with its
`unpack` calls is rendered as one pattern match over the two operand
values; the value combinations and results are identical, and any other
combination is the source's fatal "Add operation not supported" panic. -/
def add (s : Interpreter) : Except VmErr Interpreter :=
  match fetch_register s with
  | .error er => .error er
  | .ok (res, s1) =>
    match fetch_register s1 with
    | .error er => .error er
    | .ok (r1, s2) =>
      match fetch_register s2 with
      | .error er => .error er
      | .ok (r2, s3) =>
        match s3.regs.get? r1 with
        | none => .error .regReadOutOfBounds
        | some v1 =>
          match s3.regs.get? r2 with
          | none => .error .regReadOutOfBounds
          | some v2 =>
            match v1, v2 with
            | .Number a, .Number b =>
              .ok { s3 with regs := register_insert s3.regs res (.Number (a + b)) }
            | .Number a, .StringLiteral b =>
              .ok { s3 with regs :=
                register_insert s3.regs res (.StringLiteral (numToString a ++ b)) }
            | .StringLiteral a, .Number b =>
              .ok { s3 with regs :=
                register_insert s3.regs res (.StringLiteral (a ++ numToString b)) }
            | .StringLiteral a, .StringLiteral b =>
              .ok { s3 with regs :=
                register_insert s3.regs res (.StringLiteral (a ++ b)) }
            | _, _ => .error (.addTypeError s3.ip)

/-- vm.rs `sub` (numbers only). -/
def sub (s : Interpreter) : Except VmErr Interpreter :=
  match fetch_register s with
  | .error er => .error er
  | .ok (res, s1) =>
    match fetch_register s1 with
    | .error er => .error er
    | .ok (r1, s2) =>
      match fetch_register s2 with
      | .error er => .error er
      | .ok (r2, s3) =>
        match s3.regs.get? r1 with
        | none => .error .regReadOutOfBounds
        | some v1 =>
          match s3.regs.get? r2 with
          | none => .error .regReadOutOfBounds
          | some v2 =>
            match v1, v2 with
            | .Number a, .Number b =>
              .ok { s3 with regs := register_insert s3.regs res (.Number (a - b)) }
            | _, _ => .error (.subTypeError s3.ip)

/-- vm.rs `mul` (numbers only). -/
def mul (s : Interpreter) : Except VmErr Interpreter :=
  match fetch_register s with
  | .error er => .error er
  | .ok (res, s1) =>
    match fetch_register s1 with
    | .error er => .error er
    | .ok (r1, s2) =>
      match fetch_register s2 with
      | .error er => .error er
      | .ok (r2, s3) =>
        match s3.regs.get? r1 with
        | none => .error .regReadOutOfBounds
        | some v1 =>
          match s3.regs.get? r2 with
          | none => .error .regReadOutOfBounds
          | some v2 =>
            match v1, v2 with
            | .Number a, .Number b =>
              .ok { s3 with regs := register_insert s3.regs res (.Number (a * b)) }
            | _, _ => .error (.mulTypeError s3.ip)

/-- vm.rs `div` (numbers only).  The source divides host `f64`s; the
model divides exact integers.  No verified property evaluates `Div`, so
the IEEE corner cases (±∞, NaN) are never exercised here. -/
def div (s : Interpreter) : Except VmErr Interpreter :=
  match fetch_register s with
  | .error er => .error er
  | .ok (res, s1) =>
    match fetch_register s1 with
    | .error er => .error er
    | .ok (r1, s2) =>
      match fetch_register s2 with
      | .error er => .error er
      | .ok (r2, s3) =>
        match s3.regs.get? r1 with
        | none => .error .regReadOutOfBounds
        | some v1 =>
          match s3.regs.get? r2 with
          | none => .error .regReadOutOfBounds
          | some v2 =>
            match v1, v2 with
            | .Number a, .Number b =>
              .ok { s3 with regs := register_insert s3.regs res (.Number (a / b)) }
            | _, _ => .error (.divTypeError s3.ip)

/-- vm.rs `cmp_less_than`: numbers only; stores the Bool and sets the flag. -/
def cmp_less_than (s : Interpreter) : Except VmErr Interpreter :=
  match fetch_register s with
  | .error er => .error er
  | .ok (res, s1) =>
    match fetch_register s1 with
    | .error er => .error er
    | .ok (r1, s2) =>
      match fetch_register s2 with
      | .error er => .error er
      | .ok (r2, s3) =>
        match s3.regs.get? r1 with
        | none => .error .regReadOutOfBounds
        | some v1 =>
          match s3.regs.get? r2 with
          | none => .error .regReadOutOfBounds
          | some v2 =>
            match v1, v2 with
            | .Number a, .Number b =>
              let f := decide (a < b)
              .ok { s3 with flag := f,
                            regs := register_insert s3.regs res (.Bool f) }
            | _, _ => .error (.cmpLTTypeError s3.ip)

/-- vm.rs `cmp_less_equal`. -/
def cmp_less_equal (s : Interpreter) : Except VmErr Interpreter :=
  match fetch_register s with
  | .error er => .error er
  | .ok (res, s1) =>
    match fetch_register s1 with
    | .error er => .error er
    | .ok (r1, s2) =>
      match fetch_register s2 with
      | .error er => .error er
      | .ok (r2, s3) =>
        match s3.regs.get? r1 with
        | none => .error .regReadOutOfBounds
        | some v1 =>
          match s3.regs.get? r2 with
          | none => .error .regReadOutOfBounds
          | some v2 =>
            match v1, v2 with
            | .Number a, .Number b =>
              let f := decide (a ≤ b)
              .ok { s3 with flag := f,
                            regs := register_insert s3.regs res (.Bool f) }
            | _, _ => .error (.cmpLETypeError s3.ip)

/-- vm.rs `cmp_greater_than`. -/
def cmp_greater_than (s : Interpreter) : Except VmErr Interpreter :=
  match fetch_register s with
  | .error er => .error er
  | .ok (res, s1) =>
    match fetch_register s1 with
    | .error er => .error er
    | .ok (r1, s2) =>
      match fetch_register s2 with
      | .error er => .error er
      | .ok (r2, s3) =>
        match s3.regs.get? r1 with
        | none => .error .regReadOutOfBounds
        | some v1 =>
          match s3.regs.get? r2 with
          | none => .error .regReadOutOfBounds
          | some v2 =>
            match v1, v2 with
            | .Number a, .Number b =>
              let f := decide (b < a)
              .ok { s3 with flag := f,
                            regs := register_insert s3.regs res (.Bool f) }
            | _, _ => .error (.cmpGTTypeError s3.ip)

/-- vm.rs `cmp_greater_equal`. -/
def cmp_greater_equal (s : Interpreter) : Except VmErr Interpreter :=
  match fetch_register s with
  | .error er => .error er
  | .ok (res, s1) =>
    match fetch_register s1 with
    | .error er => .error er
    | .ok (r1, s2) =>
      match fetch_register s2 with
      | .error er => .error er
      | .ok (r2, s3) =>
        match s3.regs.get? r1 with
        | none => .error .regReadOutOfBounds
        | some v1 =>
          match s3.regs.get? r2 with
          | none => .error .regReadOutOfBounds
          | some v2 =>
            match v1, v2 with
            | .Number a, .Number b =>
              let f := decide (b ≤ a)
              .ok { s3 with flag := f,
                            regs := register_insert s3.regs res (.Bool f) }
            | _, _ => .error (.cmpGETypeError s3.ip)

/-- vm.rs `cmp_equals`: numbers, strings, and mixed number/string compared
through the decimal textual form. -/
def cmp_equals (s : Interpreter) : Except VmErr Interpreter :=
  match fetch_register s with
  | .error er => .error er
  | .ok (res, s1) =>
    match fetch_register s1 with
    | .error er => .error er
    | .ok (r1, s2) =>
      match fetch_register s2 with
      | .error er => .error er
      | .ok (r2, s3) =>
        match s3.regs.get? r1 with
        | none => .error .regReadOutOfBounds
        | some v1 =>
          match s3.regs.get? r2 with
          | none => .error .regReadOutOfBounds
          | some v2 =>
            match v1, v2 with
            | .Number a, .Number b =>
              let f := decide (a = b)
              .ok { s3 with flag := f,
                            regs := register_insert s3.regs res (.Bool f) }
            | .Number a, .StringLiteral b =>
              let f := decide (numToString a = b)
              .ok { s3 with flag := f,
                            regs := register_insert s3.regs res (.Bool f) }
            | .StringLiteral a, .Number b =>
              let f := decide (a = numToString b)
              .ok { s3 with flag := f,
                            regs := register_insert s3.regs res (.Bool f) }
            | .StringLiteral a, .StringLiteral b =>
              let f := decide (a = b)
              .ok { s3 with flag := f,
                            regs := register_insert s3.regs res (.Bool f) }
            | _, _ => .error (.cmpEqTypeError s3.ip)

/-- vm.rs `execute_instr`: fetch the opcode slot and dispatch.  The
wildcard arm is the source's "Instruction not implemented in vm" panic,
reachable only when the slot is an operand. -/
def execute_instr (s : Interpreter) : Except VmErr Interpreter :=
  match fetch_val s with
  | .error er => .error er
  | .ok (instr, s1) =>
    match instr with
    | .I .LoadI => loadi s1
    | .I .LoadR => loadr s1
    | .I .PushP => pushp s1
    | .I .PushA => pusha s1
    | .I .LoadP => loadp s1
    | .I .LoadA => loada s1
    | .I .LoadC => loadc s1
    | .I .Jmp => jmp s1
    | .I .Call => function_call s1
    | .I .JmpIf => jmp_if s1
    | .I .Print => print s1
    | .I .Add => add s1
    | .I .Sub => sub s1
    | .I .Mul => mul s1
    | .I .Div => div s1
    | .I .CmpLT => cmp_less_than s1
    | .I .CmpLE => cmp_less_equal s1
    | .I .CmpGT => cmp_greater_than s1
    | .I .CmpGE => cmp_greater_equal s1
    | .I .CmpEq => cmp_equals s1
    | .I .Ret => ret s1
    | .V _ => .error (.unimplementedInstr s1.ip)

/-- vm.rs `Interpreter::new`. -/
def initState (program : Program) : Interpreter :=
  { bytecode := program.bytecode, ip := program.entry_point, regs := [],
    local_pool := [], function_list := program.function_list,
    const_pool := program.const_pool, args := [], call_stack := [],
    flag := false, output := [] }

/-- The `while self.ip < len` dispatch loop of vm.rs `interpret`,
step-indexed by fuel (the source loop has no fuel; `outOfFuel` marks an
unfinished run, never a result the source could produce). -/
def runLoop : Nat → Interpreter → Except VmErr Interpreter
  | 0, s => if s.ip < s.bytecode.length then .error .outOfFuel else .ok s
  | fuel + 1, s =>
    if s.ip < s.bytecode.length then
      match execute_instr s with
      | .error er => .error er
      | .ok s1 => runLoop fuel s1
    else .ok s

/-- vm.rs `interpret`: initialize register 0 with `Number(0.0)`, then run
the dispatch loop. -/
def interpret (fuel : Nat) (s : Interpreter) : Except VmErr Interpreter :=
  runLoop fuel { s with regs := s.regs ++ [Value.Number 0] }

/-- Execute exactly `n` dispatch steps (trace gadget used to observe the
machine state between instructions of vm.rs's loop). -/
def stepN : Nat → Interpreter → Except VmErr Interpreter
  | 0, s => .ok s
  | n + 1, s =>
    match execute_instr s with
    | .error er => .error er
    | .ok s1 => stepN n s1

end Interpreter

/-- The codegen-then-VM pipeline of main.rs, observed through the lines
printed by `Print`: `none` when either stage fails. -/
def pipelineOutput (ast : List Stmt) (fuel : Nat) : Option (List String) :=
  match Codegen.bytecode_gen ast with
  | .error _ => none
  | .ok p =>
    match Interpreter.interpret fuel (Interpreter.initState p) with
    | .error _ => none
    | .ok s => some s.output

namespace CompAi

/-- comp_ai.rs `Interval` (the source stores `usize` bounds). -/
structure Interval where
  bottom : Nat
  top : Nat
  deriving DecidableEq, Repr

/-- comp_ai.rs `BoolState`. -/
inductive BoolState where
  | Unknown
  | T
  | F
  | Either
  deriving DecidableEq, Repr

/-- comp_ai.rs `Mem`. -/
inductive Mem where
  | I (i : Interval)
  | B (b : BoolState)
  deriving DecidableEq, Repr

/-- comp_ai.rs `MemIdx`. -/
inductive MemIdx where
  | R (r : Nat)
  | P (p : Nat)
  deriving DecidableEq, Repr

/-- Modelled from the spec: the basic-block type produced by
`generate_cfg`, which comp_ai.rs and main.rs reference but which is not
present under src/.  Per §4.3 a block carries its instruction indices
`instrs: [ip, …]` and successor ids `edges: [block_id, …]`; the tuple
payload the source pairs with each instruction index is unused by the
analysis (`handle_block` reads only `instr.0`). -/
structure Block where
  instrs : List Nat
  edges : List Nat
  deriving DecidableEq, Repr

/-- Modelled from the spec: the CFG handed to the abstract interpreter, a
mapping `block_id → Block` (modelled as an association list; comp_ai.rs
accesses it only through `cfg.blocks.get(&block_id)`). -/
structure Cfg where
  blocks : List (Nat × Block)
  deriving DecidableEq, Repr

/-- Panic sites of comp_ai.rs: the `unreachable!()` opcode arm, the
`unwrap`/`expect` panics, the `Interpreter::unpack_*` panics it reuses,
and the fuel marker of the model's worklist loop. -/
inductive AiErr where
  | vm (e : VmErr)
  | unreachableInstr
  | memoryMissing
  | missingBlock
  | outOfFuel
  deriving DecidableEq, Repr

/-- Rust `as usize` applied to an `f64` (saturating toward the usize
range); comp_ai.rs uses it on the operand of `LoadI`. -/
def f64ToUsize (i : Int) : Nat :=
  if i < 0 then 0 else min i.toNat (usizeMod.toNat - 1)

/-- Abstract-interpreter state (comp_ai.rs `AbstractInterpreter`); the
`FxHashMap` memory is modelled as an association list with most-recent
insertion first. -/
structure AbstractInterpreter where
  bytecode : List BcArr
  ip : Nat
  memory : List (MemIdx × Mem)
  deriving DecidableEq, Repr

namespace AbstractInterpreter

/-- `FxHashMap::insert`: replace any previous binding of the key. -/
def memInsert (m : List (MemIdx × Mem)) (k : MemIdx) (v : Mem) :
    List (MemIdx × Mem) :=
  (k, v) :: m.filter (fun p => p.1 != k)

/-- comp_ai.rs `AbstractInterpreter::new`. -/
def new (program : Program) : AbstractInterpreter :=
  { bytecode := program.bytecode, ip := program.entry_point, memory := [] }

/-- comp_ai.rs `fetch_val` (same shape as the VM's). -/
def fetch_val (s : AbstractInterpreter) :
    Except AiErr (BcArr × AbstractInterpreter) :=
  match s.bytecode.get? s.ip with
  | some v => .ok (v, { s with ip := s.ip + 1 })
  | none => .error (.vm .fetchOutOfBounds)

/-- comp_ai.rs `fetch_val_at`: read at the given index and advance `ip`. -/
def fetch_val_at (s : AbstractInterpreter) (ip : Nat) :
    Except AiErr (BcArr × AbstractInterpreter) :=
  match s.bytecode.get? ip with
  | some v => .ok (v, { s with ip := s.ip + 1 })
  | none => .error (.vm .fetchOutOfBounds)

/-- comp_ai.rs `loadi`: record an exact interval for the loaded constant
(the source reuses `Interpreter::unpack_*`, whose panics propagate). -/
def loadi (s : AbstractInterpreter) : Except AiErr AbstractInterpreter :=
  match fetch_val s with
  | .error er => .error er
  | .ok (reg, s1) =>
    match fetch_val s1 with
    | .error er => .error er
    | .ok (v, s2) =>
      match Interpreter.unpack_register reg with
      | .error er => .error (.vm er)
      | .ok r =>
        match Interpreter.unpack_value v with
        | .error er => .error (.vm er)
        | .ok valv =>
          match valv with
          | .Number n =>
            let val := f64ToUsize n
            .ok { s2 with
              memory := memInsert s2.memory (.R r) (.I ⟨val, val⟩) }
          | _ => .error (.vm .unpackMismatch)

/-- comp_ai.rs `pushp`: copy the register's abstract value into the pool
slot (`unwrap` panics when the register has no abstract value). -/
def pushp (s : AbstractInterpreter) : Except AiErr AbstractInterpreter :=
  match fetch_val s with
  | .error er => .error er
  | .ok (pool, s1) =>
    match fetch_val s1 with
    | .error er => .error er
    | .ok (reg, s2) =>
      match Interpreter.unpack_register reg with
      | .error er => .error (.vm er)
      | .ok r =>
        match Interpreter.unpack_pool pool with
        | .error er => .error (.vm er)
        | .ok p =>
          match s2.memory.lookup (.R r) with
          | none => .error .memoryMissing
          | some val => .ok { s2 with memory := memInsert s2.memory (.P p) val }

/-- comp_ai.rs `loadp`. -/
def loadp (s : AbstractInterpreter) : Except AiErr AbstractInterpreter :=
  match fetch_val s with
  | .error er => .error er
  | .ok (reg, s1) =>
    match fetch_val s1 with
    | .error er => .error er
    | .ok (pool, s2) =>
      match Interpreter.unpack_register reg with
      | .error er => .error (.vm er)
      | .ok r =>
        match Interpreter.unpack_pool pool with
        | .error er => .error (.vm er)
        | .ok p =>
          match s2.memory.lookup (.P p) with
          | none => .error .memoryMissing
          | some val => .ok { s2 with memory := memInsert s2.memory (.R r) val }

/-- comp_ai.rs `cmpgt`: record `Bool(Unknown)` for the destination. -/
def cmpgt (s : AbstractInterpreter) : Except AiErr AbstractInterpreter :=
  match fetch_val s with
  | .error er => .error er
  | .ok (res, s1) =>
    match fetch_val s1 with
    | .error er => .error er
    | .ok (_, s2) =>
      match fetch_val s2 with
      | .error er => .error er
      | .ok (_, s3) =>
        match Interpreter.unpack_register res with
        | .error er => .error (.vm er)
        | .ok r => .ok { s3 with memory := memInsert s3.memory (.R r) (.B .Unknown) }

/-- comp_ai.rs `jmpif` (consumes the offset, no abstract effect). -/
def jmpif (s : AbstractInterpreter) : Except AiErr AbstractInterpreter :=
  match fetch_val s with
  | .error er => .error er
  | .ok (_, s1) => .ok s1

/-- comp_ai.rs `jmp`. -/
def jmp (s : AbstractInterpreter) : Except AiErr AbstractInterpreter :=
  match fetch_val s with
  | .error er => .error er
  | .ok (_, s1) => .ok s1

/-- comp_ai.rs `add` (consumes three operands, no abstract effect). -/
def add (s : AbstractInterpreter) : Except AiErr AbstractInterpreter :=
  match fetch_val s with
  | .error er => .error er
  | .ok (_, s1) =>
    match fetch_val s1 with
    | .error er => .error er
    | .ok (_, s2) =>
      match fetch_val s2 with
      | .error er => .error er
      | .ok (_, s3) => .ok s3

/-- comp_ai.rs `handle_label`: dispatch on the opcode at `ip`; every
opcode outside the handled eight hits the source's `unreachable!()`. -/
def handle_label (s : AbstractInterpreter) (ip : Nat) :
    Except AiErr AbstractInterpreter :=
  match fetch_val_at s ip with
  | .error er => .error er
  | .ok (op, s1) =>
    match op with
    | .I .LoadI => loadi s1
    | .I .PushP => pushp s1
    | .I .LoadP => loadp s1
    | .I .CmpGT => cmpgt s1
    | .I .JmpIf => jmpif s1
    | .I .Jmp => jmp s1
    | .I .Add => add s1
    | .I .Print => .ok s1
    | _ => .error .unreachableInstr

/-- comp_ai.rs `handle_block`: set `ip` to each instruction index in
order and run `handle_label` on it. -/
def handle_block (s : AbstractInterpreter) (instrs : List Nat) :
    Except AiErr AbstractInterpreter :=
  match instrs with
  | [] => .ok s
  | ip :: rest =>
    match handle_label { s with ip := ip } ip with
    | .error er => .error er
    | .ok s1 => handle_block s1 rest

/-- The worklist loop of comp_ai.rs `run`, step-indexed by fuel.  The
popped id is skipped when already handled; otherwise the block is looked
up (`expect` panics when the CFG lacks it), handled, recorded, and its
successors are appended to the worklist.  The returned list records the
processed block ids (most recent first). -/
def runAux (cfg : Cfg) :
    Nat → List Nat → List Nat → AbstractInterpreter →
    Option (Except AiErr (AbstractInterpreter × List Nat))
  | 0, worklist, handled, s =>
    if worklist.isEmpty then some (.ok (s, handled)) else none
  | _ + 1, [], handled, s => some (.ok (s, handled))
  | fuel + 1, block_id :: rest, handled, s =>
    if block_id ∈ handled then runAux cfg fuel rest handled s
    else
      match cfg.blocks.lookup block_id with
      | none => some (.error .missingBlock)
      | some block =>
        match handle_block s block.instrs with
        | .error er => some (.error er)
        | .ok s1 => runAux cfg fuel (rest ++ block.edges) (block_id :: handled) s1

/-- comp_ai.rs `run`: start the worklist with block 0. -/
def run (cfg : Cfg) (fuel : Nat) (s : AbstractInterpreter) :
    Option (Except AiErr (AbstractInterpreter × List Nat)) :=
  runAux cfg fuel [0] [] s

/-- A fuel budget sufficient for `run` to finish on any CFG: one initial
worklist entry plus every successor edge of every block. -/
def fuelBound (cfg : Cfg) : Nat :=
  1 + (cfg.blocks.map (fun p => p.2.edges.length)).sum

end AbstractInterpreter

end CompAi

/-- The stage ordering of main.rs: `generate_cfg`, then the abstract
interpreter over the first CFG, then the VM.  An abstract-interpreter
panic aborts the process before the VM starts, so no program output is
produced; a completed analysis hands control to the VM, whose `Print`
lines are the program output. -/
def mainStages (p : Program) (cfg : CompAi.Cfg) (aiFuel vmFuel : Nat) :
    Except CompAi.AiErr (Except VmErr (List String)) :=
  match CompAi.AbstractInterpreter.run cfg aiFuel
      (CompAi.AbstractInterpreter.new p) with
  | none => .error .outOfFuel
  | some (.error e) => .error e
  | some (.ok _) =>
    .ok (match Interpreter.interpret vmFuel (Interpreter.initState p) with
         | .ok s => .ok s.output
         | .error e => .error e)

/-- The initial codegen state of codegen.rs `bytecode_gen`. -/
def cgInit : Codegen :=
  { bytecode := [], const_pool := [], const_counter := 0,
    function_list := [], reg_counter := 1, cur_depth := 0,
    pool := [], entry_point := none }

/-- Whether slot `i` of a bytecode stream holds an opcode tag. -/
def isOpcodeSlot (bc : List BcArr) (i : Nat) : Bool :=
  match bc.get? i with
  | some (.I _) => true
  | _ => false

/-- Identifier token. -/
def tkId (s : String) : Token := { t_type := .Identifier, value := s, line_num := 1 }

/-- The token `<`. -/
def tkLess : Token := { t_type := .Less, value := "<", line_num := 1 }

/-- The token `+`. -/
def tkPlus : Token := { t_type := .Plus, value := "+", line_num := 1 }

/-- The token `!=`. -/
def tkNEq : Token := { t_type := .NEqual, value := "!=", line_num := 1 }

/-- Number-literal expression. -/
def numLit (n : Int) : Expr := .Literal (.Number n)

/-- AST of `var i = 0; while (i < 3) { console.log(i); i = i + 1; }` as
parser.rs produces it (`console.log` lexes to the `Print` token, so
`console.log(i);` parses to `Stmt::Print`). -/
def astC5 : List Stmt :=
  [.Variable (tkId "i") (some (numLit 0)),
   .While (.Binary (.Variable (tkId "i")) tkLess (numLit 3))
     (.Block
       [.Print (.Variable (tkId "i")),
        .Expression (.Assignment (tkId "i")
          (.Binary (.Variable (tkId "i")) tkPlus (numLit 1)))])]

/-- AST of `var i = 0; while (i < 3 + 1) { i = i + 1; }`: a while loop
whose condition is not a two-leaf comparison (it lowers to 17 slots, not
10). -/
def astC1 : List Stmt :=
  [.Variable (tkId "i") (some (numLit 0)),
   .While (.Binary (.Variable (tkId "i")) tkLess
       (.Binary (numLit 3) tkPlus (numLit 1)))
     (.Block
       [.Expression (.Assignment (tkId "i")
          (.Binary (.Variable (tkId "i")) tkPlus (numLit 1)))])]

/-- The program codegen produces for `astC1`. -/
def progC1 : Program :=
  { bytecode :=
      [.I .LoadI, .V (.Reg 1), .V (.Number 0),
       .I .PushP, .V (.Pool 0), .V (.Reg 1),
       .I .Jmp, .V (.VAddr 20),
       .I .LoadP, .V (.Reg 2), .V (.Pool 0),
       .I .LoadI, .V (.Reg 3), .V (.Number 1),
       .I .Add, .V (.Reg 4), .V (.Reg 2), .V (.Reg 3),
       .I .PushP, .V (.Pool 0), .V (.Reg 4),
       .I .LoadP, .V (.Reg 2), .V (.Pool 0),
       .I .LoadI, .V (.Reg 3), .V (.Number 3),
       .I .LoadI, .V (.Reg 4), .V (.Number 1),
       .I .Add, .V (.Reg 5), .V (.Reg 3), .V (.Reg 4),
       .I .CmpLT, .V (.Reg 6), .V (.Reg 2), .V (.Reg 5),
       .I .JmpIf, .V (.VAddr (-32))],
    entry_point := 0, function_list := [], const_pool := [] }

/-- AST of `function g(){ return 42; } function f(){ } g(); f();`
(parser.rs wraps each function body in one `Stmt::Block`). -/
def astC3 : List Stmt :=
  [.Function (tkId "g") [] [.Block [.Return (some (numLit 42))]],
   .Function (tkId "f") [] [.Block []],
   .Expression (.Call (.Variable (tkId "g")) []),
   .Expression (.Call (.Variable (tkId "f")) [])]

/-- The program codegen produces for `astC3`: `g`'s body at 0..6, `f`'s
body (a bare `Ret`) at 7, entry point 8. -/
def progC3 : Program :=
  { bytecode :=
      [.I .LoadI, .V (.Reg 1), .V (.Number 42),
       .I .LoadR, .V (.Reg 0), .V (.Reg 1),
       .I .Ret,
       .I .Ret,
       .I .Call, .V (.VAddr 0),
       .I .Call, .V (.VAddr 7)],
    entry_point := 8, function_list := [("f", 7), ("g", 0)],
    const_pool := [] }

/-- The VM state for `progC3` right after vm.rs `interpret` pushed the
initial `Number(0.0)` into register 0 and before the first dispatch. -/
def vmStartC3 : Interpreter :=
  { Interpreter.initState progC3 with regs := [.Number 0] }

/-- `vmStartC3` after five dispatch steps: `g` has been called and has
returned 42, and the IP sits on `f`'s `Ret` with the return address 12 on
the call stack.  (`f`'s body executed no return statement.) -/
def vmC3at5 : Interpreter :=
  { bytecode := progC3.bytecode, ip := 7,
    regs := [.Number 42, .Number 42], local_pool := [],
    function_list := [("f", 7), ("g", 0)], const_pool := [], args := [],
    call_stack := [12], flag := false, output := [] }

/-- `vmStartC3` after six dispatch steps: `f`'s `Ret` has just
transferred control back to the caller. -/
def vmC3at6 : Interpreter :=
  { bytecode := progC3.bytecode, ip := 12,
    regs := [.Number 42, .Number 42], local_pool := [],
    function_list := [("f", 7), ("g", 0)], const_pool := [], args := [],
    call_stack := [], flag := false, output := [] }

/-- A VM state about to execute `PushP Pool(5), Reg(0)` with an empty
local pool: a write at index 5 of a length-0 sequence. -/
def vmC2 : Interpreter :=
  { bytecode := [.I .PushP, .V (.Pool 5), .V (.Reg 0)], ip := 0,
    regs := [.Number 7], local_pool := [], function_list := [],
    const_pool := [], args := [], call_stack := [], flag := false,
    output := [] }


/-- `vmC2` after one dispatch step: the write "at index 5" landed at
index 0 and execution continued normally. -/
def vmC2after : Interpreter :=
  { vmC2 with ip := 3, local_pool := [.Number 7] }


namespace Codegen

/-- The post-opcode slot layout `emit_instr` pushes for each opcode. -/
def emitLayout (i : Instr) (r1 r2 res : BcArr) : List BcArr :=
  match i with
  | .LoadI | .LoadR | .LoadP | .LoadA | .PushP | .PushA | .LoadC =>
    [.I i, res, r1]
  | .Print => [.I i, r1]
  | .Add | .Sub | .Mul | .Div
  | .CmpLT | .CmpLE | .CmpGT | .CmpGE | .CmpEq => [.I i, res, r1, r2]
  | .Jmp | .JmpIf | .Call => [.I i, r1]
  | .Ret => [.I i]

/-- Leaf operands of a condition: identifiers and number or string
literals, each of which lowers to one 3-slot instruction. -/
def leafOperand (e : Expr) : Bool :=
  match e with
  | .Variable _ => true
  | .Literal (.Number _) => true
  | .Literal (.StringLiteral _) => true
  | _ => false

/-- The binary operators codegen supports (the arms of `expression`'s
`Binary` match). -/
def supportedBinOp (t : TokenType) : Bool :=
  match t with
  | .Plus | .Minus | .Divide | .Multiply
  | .Less | .LessEq | .Greater | .GreaterEq | .Equals => true
  | _ => false

end Codegen

namespace CompAi.AbstractInterpreter

/-- Total successor-edge count of the blocks whose ids are not yet
handled (the worklist loop's termination measure, together with the
worklist length). -/
def unhandledSum (blocks : List (Nat × CompAi.Block)) (handled : List Nat) :
    Nat :=
  ((blocks.filter (fun p => decide (p.1 ∉ handled))).map
    (fun p => p.2.edges.length)).sum

end CompAi.AbstractInterpreter

/-- The codegen state after lowering `while (1 < 2) { }` from the
initial state (used to witness `C1_while_leaf_condition_jump`). -/
def cgW : Codegen :=
  { bytecode :=
      [.I .Jmp, .V (.VAddr 0),
       .I .LoadI, .V (.Reg 1), .V (.Number 1),
       .I .LoadI, .V (.Reg 2), .V (.Number 2),
       .I .CmpLT, .V (.Reg 3), .V (.Reg 1), .V (.Reg 2),
       .I .JmpIf, .V (.VAddr (-12))],
    const_pool := [], const_counter := 0, function_list := [],
    reg_counter := 4, cur_depth := 0, pool := [], entry_point := some 0 }

/-- A one-frame VM state about to execute `Ret` (for the C3 witness). -/
def vmRetA : Interpreter :=
  { bytecode := [.I .Ret], ip := 1, regs := [.Number 42], local_pool := [],
    function_list := [], const_pool := [], args := [], call_stack := [4],
    flag := false, output := [] }

/-- `vmRetA` after `ret` popped the return address. -/
def vmRetB : Interpreter :=
  { vmRetA with ip := 4, call_stack := [] }

/-- A VM state about to execute the operands of `Add Reg(2), Reg(0),
Reg(1)` with `regs[0] = Number 1` and `regs[1] = "a"`. -/
def vmC4 : Interpreter :=
  { bytecode := [.V (.Reg 2), .V (.Reg 0), .V (.Reg 1)], ip := 0,
    regs := [.Number 1, .StringLiteral "a"], local_pool := [],
    function_list := [], const_pool := [], args := [], call_stack := [],
    flag := false, output := [] }

/-- The `Cmp` opcode each comparison token lowers to (none for `!=`,
which has no codegen arm). -/
def cmpInstrOf (t : TokenType) : Option Instr :=
  match t with
  | .Less => some .CmpLT
  | .LessEq => some .CmpLE
  | .Greater => some .CmpGT
  | .GreaterEq => some .CmpGE
  | .Equals => some .CmpEq
  | _ => none

/-- AST of `var x = 1; { var x = 2; print x; } print x;` (the `print`
statements stand for `console.log`, which lexes to the `Print` token). -/
def astC7 : List Stmt :=
  [.Variable (tkId "x") (some (numLit 1)),
   .Block [.Variable (tkId "x") (some (numLit 2)),
           .Print (.Variable (tkId "x"))],
   .Print (.Variable (tkId "x"))]

/-- A two-block cyclic CFG (block 0 → {1, 0}, block 1 → {0}) with no
instructions, and an empty analysis state (for the C8 witness). -/
def cfgW : CompAi.Cfg :=
  { blocks := [(0, { instrs := [], edges := [1, 0] }),
               (1, { instrs := [], edges := [0] })] }

/-- Empty abstract-interpreter state over an empty program. -/
def aiW : CompAi.AbstractInterpreter :=
  { bytecode := [], ip := 0, memory := [] }

/-- The opcodes comp_ai.rs `handle_label` implements; every other opcode
falls into its `unreachable!()` arm. -/
def aiHandles : Instr → Bool
  | .LoadI | .PushP | .LoadP | .CmpGT | .JmpIf | .Jmp | .Add | .Print => true
  | _ => false

/-- A one-instruction program whose only opcode is `Sub`, which the
abstract interpreter does not implement (for the C10 witness). -/
def pSub : Program :=
  { bytecode := [.I .Sub], entry_point := 0, function_list := [],
    const_pool := [] }

/-- A single-block CFG over `pSub`: block 0 holds instruction index 0 and
has no successors. -/
def cfgSub : CompAi.Cfg :=
  { blocks := [(0, { instrs := [0], edges := [] })] }

namespace Codegen

@[simp] theorem entryFix_bytecode (s : Codegen) :
    (entryFix s).bytecode = s.bytecode := by
  unfold entryFix; split <;> rfl

@[simp] theorem entryFix_pool (s : Codegen) : (entryFix s).pool = s.pool := by
  unfold entryFix; split <;> rfl

@[simp] theorem entryFix_reg_counter (s : Codegen) :
    (entryFix s).reg_counter = s.reg_counter := by
  unfold entryFix; split <;> rfl

@[simp] theorem entryFix_cur_depth (s : Codegen) :
    (entryFix s).cur_depth = s.cur_depth := by
  unfold entryFix; split <;> rfl

@[simp] theorem entryFix_const_pool (s : Codegen) :
    (entryFix s).const_pool = s.const_pool := by
  unfold entryFix; split <;> rfl

@[simp] theorem entryFix_const_counter (s : Codegen) :
    (entryFix s).const_counter = s.const_counter := by
  unfold entryFix; split <;> rfl

@[simp] theorem entryFix_function_list (s : Codegen) :
    (entryFix s).function_list = s.function_list := by
  unfold entryFix; split <;> rfl


/-- `emit_instr` on an opcode tag always succeeds and appends that
opcode's layout. -/
theorem emit_instr_ok (s : Codegen) (i : Instr) (r1 r2 res : BcArr) :
    emit_instr s (.I i) r1 r2 res =
      .ok { entryFix s with
            bytecode := (entryFix s).bytecode ++ emitLayout i r1 r2 res } := by
  cases i <;> rfl

theorem emitLayout_length_pos (i : Instr) (r1 r2 res : BcArr) :
    0 < (emitLayout i r1 r2 res).length := by
  cases i <;> simp [emitLayout]

mutual

theorem expression_len : ∀ (e : Expr) (s : Codegen) (r : Nat) (s2 : Codegen),
    expression e s = .ok (r, s2) → s.bytecode.length ≤ s2.bytecode.length
  | .Binary left op right, s, r, s2 => by
    intro h
    simp only [expression, get_next_reg] at h
    split at h
    · exact Except.noConfusion h
    next r1 s1 hleft =>
      split at h
      · exact Except.noConfusion h
      next r2 sb hright =>
        have h1 := expression_len left s r1 s1 hleft
        have h2 := expression_len right s1 r2 sb hright
        split at h <;>
          first
          | exact Except.noConfusion h
          | (simp only [emit_instr_ok, Except.map, entryFix_bytecode,
               Except.ok.injEq, Prod.mk.injEq] at h
             obtain ⟨h3, h4⟩ := h
             subst h4
             simp only [List.length_append]
             omega)
  | .Literal lit, s, r, s2 => by
    intro h
    cases lit with
    | Number n =>
      simp only [expression, get_next_reg, emit_instr_ok, Except.map,
        entryFix_bytecode, Except.ok.injEq, Prod.mk.injEq] at h
      obtain ⟨h3, h4⟩ := h
      subst h4
      simp
    | StringLiteral str =>
      simp only [expression, get_next_reg, get_next_const, emit_instr_ok,
        Except.map, entryFix_bytecode, Except.ok.injEq, Prod.mk.injEq] at h
      obtain ⟨h3, h4⟩ := h
      subst h4
      simp
    | True => exact Except.noConfusion h
    | False => exact Except.noConfusion h
    | Nil => exact Except.noConfusion h
  | .Variable name, s, r, s2 => by
    intro h
    simp only [expression, get_next_reg] at h
    split at h
    · exact Except.noConfusion h
    next index hidx =>
      simp only [emit_instr_ok, Except.map, entryFix_bytecode,
        Except.ok.injEq, Prod.mk.injEq] at h
      obtain ⟨h3, h4⟩ := h
      subst h4
      simp
  | .Grouping inner, s, r, s2 => by
    intro h
    simp only [expression] at h
    exact expression_len inner s r s2 h
  | .Assignment name rhs, s, r, s2 => by
    intro h
    simp only [expression] at h
    split at h
    · exact Except.noConfusion h
    next register_index s1 hrhs =>
      have h1 := expression_len rhs s register_index s1 hrhs
      split at h
      · exact Except.noConfusion h
      next pool_index hidx =>
        simp only [emit_instr_ok, Except.map, entryFix_bytecode,
          Except.ok.injEq, Prod.mk.injEq] at h
        obtain ⟨h3, h4⟩ := h
        subst h4
        simp only [List.length_append]
        omega
  | .Call callee arguments, s, r, s2 => by
    intro h
    simp only [expression] at h
    split at h
    next name =>
      split at h
      · exact Except.noConfusion h
      next pos hpos =>
        split at h
        · exact Except.noConfusion h
        next s1 hargs =>
          have h1 := expression_args_len arguments 0 s s1 hargs
          simp only [emit_instr_ok, Except.map, entryFix_bytecode,
            Except.ok.injEq, Prod.mk.injEq] at h
          obtain ⟨h3, h4⟩ := h
          subst h4
          simp only [List.length_append]
          omega
    · exact Except.noConfusion h
  | .Logical a lop b, s, r, s2 => by
    intro h
    simp only [expression] at h
    exact Except.noConfusion h
  | .Unary t a, s, r, s2 => by
    intro h
    simp only [expression] at h
    exact Except.noConfusion h

theorem expression_args_len : ∀ (args : List Expr) (i : Nat) (s s2 : Codegen),
    expression_args args i s = .ok s2 → s.bytecode.length ≤ s2.bytecode.length
  | [], i, s, s2 => by
    intro h
    simp only [expression_args] at h
    injection h with h
    subst h
    exact le_refl _
  | a :: rest, i, s, s2 => by
    intro h
    simp only [expression_args] at h
    split at h
    · exact Except.noConfusion h
    next register_index s1 ha =>
      have h1 := expression_len a s register_index s1 ha
      simp only [emit_instr_ok] at h
      have h2 := expression_args_len rest (i + 1) _ s2 h
      simp only [entryFix_bytecode, List.length_append] at h2
      omega

end

end Codegen

/-- C2 counterexample.  The claim states that a VM write at an index
strictly greater than the sequence length is a fatal runtime error that
halts execution.  Here `PushP Pool(5), Reg(0)` writes index 5 of the
empty local pool: execution continues normally and the value is silently
appended at index 0. -/
theorem C2_counterexample :
    Interpreter.execute_instr vmC2 = .ok vmC2after ∧
    vmC2after.local_pool = [.Number 7] ∧
    vmC2after.local_pool.get? 5 = none :=
  ⟨rfl, rfl, rfl⟩

/-- C5: running codegen and then the VM on
`var i = 0; while (i < 3) { console.log(i); i = i + 1; }` terminates
(the fuel-bounded dispatch loop reaches `ip = bytecode length` and
returns normally) and prints exactly the lines `0`, `1`, `2` in order. -/
theorem C5_while_loop_prints_0_1_2 :
    pipelineOutput astC5 100 = some ["0", "1", "2"] := rfl

/-- C6 counterexample.  The claim states that every §6 comparison
operator, `!=` included, lowers to a `Cmp` instruction and succeeds.
Lowering `1 != 2` from the initial codegen state instead hits the
source's "Operator not supported" panic (codegen has no arm for
`NEqual` and no `CmpNEq` opcode exists). -/
theorem C6_counterexample :
    Codegen.expression (.Binary (numLit 1) tkNEq (numLit 2)) cgInit =
      .error .opNotSupported := rfl

namespace Codegen

mutual

theorem expression_pool : ∀ (e : Expr) (s : Codegen) (r : Nat) (s2 : Codegen),
    expression e s = .ok (r, s2) → s2.pool = s.pool
  | .Binary left op right, s, r, s2 => by
    intro h
    simp only [expression, get_next_reg] at h
    split at h
    · exact Except.noConfusion h
    next r1 s1 hleft =>
      split at h
      · exact Except.noConfusion h
      next r2 sb hright =>
        have h1 := expression_pool left s r1 s1 hleft
        have h2 := expression_pool right s1 r2 sb hright
        split at h <;>
          first
          | exact Except.noConfusion h
          | (simp only [emit_instr_ok, Except.map, entryFix_pool,
               Except.ok.injEq, Prod.mk.injEq] at h
             obtain ⟨h3, h4⟩ := h
             subst h4
             simp only [entryFix_pool]
             rw [h2, h1])
  | .Literal lit, s, r, s2 => by
    intro h
    cases lit with
    | Number n =>
      simp only [expression, get_next_reg, emit_instr_ok, Except.map,
        entryFix_pool, Except.ok.injEq, Prod.mk.injEq] at h
      obtain ⟨h3, h4⟩ := h
      subst h4
      simp [entryFix_pool]
    | StringLiteral str =>
      simp only [expression, get_next_reg, get_next_const, emit_instr_ok,
        Except.map, entryFix_pool, Except.ok.injEq, Prod.mk.injEq] at h
      obtain ⟨h3, h4⟩ := h
      subst h4
      simp [entryFix_pool]
    | True => exact Except.noConfusion h
    | False => exact Except.noConfusion h
    | Nil => exact Except.noConfusion h
  | .Variable name, s, r, s2 => by
    intro h
    simp only [expression, get_next_reg] at h
    split at h
    · exact Except.noConfusion h
    next index hidx =>
      simp only [emit_instr_ok, Except.map, entryFix_pool,
        Except.ok.injEq, Prod.mk.injEq] at h
      obtain ⟨h3, h4⟩ := h
      subst h4
      simp [entryFix_pool]
  | .Grouping inner, s, r, s2 => by
    intro h
    simp only [expression] at h
    exact expression_pool inner s r s2 h
  | .Assignment name rhs, s, r, s2 => by
    intro h
    simp only [expression] at h
    split at h
    · exact Except.noConfusion h
    next register_index s1 hrhs =>
      have h1 := expression_pool rhs s register_index s1 hrhs
      split at h
      · exact Except.noConfusion h
      next pool_index hidx =>
        simp only [emit_instr_ok, Except.map, entryFix_pool,
          Except.ok.injEq, Prod.mk.injEq] at h
        obtain ⟨h3, h4⟩ := h
        subst h4
        simp only [entryFix_pool]
        exact h1
  | .Call callee arguments, s, r, s2 => by
    intro h
    simp only [expression] at h
    split at h
    next name =>
      split at h
      · exact Except.noConfusion h
      next pos hpos =>
        split at h
        · exact Except.noConfusion h
        next s1 hargs =>
          have h1 := expression_args_pool arguments 0 s s1 hargs
          simp only [emit_instr_ok, Except.map, entryFix_pool,
            Except.ok.injEq, Prod.mk.injEq] at h
          obtain ⟨h3, h4⟩ := h
          subst h4
          simp only [entryFix_pool]
          exact h1
    · exact Except.noConfusion h
  | .Logical a lop b, s, r, s2 => by
    intro h
    simp only [expression] at h
    exact Except.noConfusion h
  | .Unary t a, s, r, s2 => by
    intro h
    simp only [expression] at h
    exact Except.noConfusion h

theorem expression_args_pool : ∀ (args : List Expr) (i : Nat) (s s2 : Codegen),
    expression_args args i s = .ok s2 → s2.pool = s.pool
  | [], i, s, s2 => by
    intro h
    simp only [expression_args] at h
    injection h with h
    subst h
    rfl
  | a :: rest, i, s, s2 => by
    intro h
    simp only [expression_args] at h
    split at h
    · exact Except.noConfusion h
    next register_index s1 ha =>
      have h1 := expression_pool a s register_index s1 ha
      simp only [emit_instr_ok] at h
      have h2 := expression_args_pool rest (i + 1) _ s2 h
      simp only [entryFix_pool] at h2
      rw [h2, h1]

end

theorem assignment_len (name : Token) (e : Option Expr) (s : Codegen)
    (r : Nat) (s2 : Codegen) (h : assignment name e s = .ok (r, s2)) :
    s.bytecode.length ≤ s2.bytecode.length := by
  simp only [assignment] at h
  split at h
  · exact Except.noConfusion h
  next ex =>
    split at h
    · exact Except.noConfusion h
    next ereg s1 hex =>
      have h1 := expression_len ex s ereg s1 hex
      split at h
      · exact Except.noConfusion h
      split at h
      · exact Except.noConfusion h
      next index hidx =>
        simp only [emit_instr_ok, Except.map, entryFix_bytecode,
          Except.ok.injEq, Prod.mk.injEq] at h
        obtain ⟨h3, h4⟩ := h
        subst h4
        simp only [List.length_append]
        omega

theorem ret_len (e : Option Expr) (s s2 : Codegen)
    (h : ret e s = .ok s2) : s.bytecode.length ≤ s2.bytecode.length := by
  unfold ret at h
  split at h
  next ex =>
    split at h
    · exact Except.noConfusion h
    next v s1 hex =>
      have h1 := expression_len ex s v s1 hex
      simp only [emit_instr_ok, Except.ok.injEq] at h
      subst h
      simp only [entryFix_bytecode, List.length_append]
      omega
  · simp only [emit_instr_ok, Except.ok.injEq] at h
    subst h
    simp

theorem print_len (e : Expr) (s s2 : Codegen)
    (h : print e s = .ok s2) : s.bytecode.length ≤ s2.bytecode.length := by
  unfold print at h
  split at h
  · exact Except.noConfusion h
  next r s1 hex =>
    have h1 := expression_len e s r s1 hex
    simp only [emit_instr_ok, Except.ok.injEq] at h
    subst h
    simp only [entryFix_bytecode, List.length_append]
    omega

theorem declare_args_len : ∀ (args : List Token) (i : Nat) (s s2 : Codegen),
    declare_args args i s = .ok s2 → s.bytecode.length ≤ s2.bytecode.length
  | [], i, s, s2 => by
    intro h
    simp only [declare_args] at h
    injection h with h
    subst h
    exact le_refl _
  | arg :: rest, i, s, s2 => by
    intro h
    simp only [declare_args, emit_instr_ok] at h
    have h2 := declare_args_len rest (i + 1) _ s2 h
    simp only [entryFix_bytecode, List.length_append] at h2
    omega

theorem register_function_state (s : Codegen) (name : String) (pos : Nat)
    (s2 : Codegen) (h : register_function s name pos = .ok s2) :
    s2.bytecode = s.bytecode ∧ s2.cur_depth = s.cur_depth ∧
    s2.pool = s.pool ∧ s2.reg_counter = s.reg_counter := by
  unfold register_function at h
  split at h
  · exact Except.noConfusion h
  · injection h with h
    subst h
    exact ⟨rfl, rfl, rfl, rfl⟩

mutual

theorem interpret_node_len : ∀ (node : Stmt) (s s2 : Codegen),
    interpret_node node s = .ok s2 → s.bytecode.length ≤ s2.bytecode.length
  | .Function n args code, s, s2 => by
    intro h
    simp only [interpret_node] at h
    split at h
    · exact Except.noConfusion h
    next s1 hreg =>
      have hr := (register_function_state s n.value s.bytecode.length s1 hreg).1
      split at h
      · exact Except.noConfusion h
      next s3 hdecl =>
        have h1 : s1.bytecode.length ≤ s3.bytecode.length :=
          declare_args_len args 0 { s1 with cur_depth := s1.cur_depth + 1 }
            s3 hdecl
        split at h
        · exact Except.noConfusion h
        next s6 hlist =>
          have h2 : s3.bytecode.length ≤ s6.bytecode.length :=
            interpret_list_len code
              { s3 with cur_depth := s3.cur_depth - 1 + 1 } s6 hlist
          have hrl : s1.bytecode.length = s.bytecode.length := by rw [hr]
          simp only [emit_instr_ok, Except.ok.injEq] at h
          subst h
          simp [entryFix_bytecode, emitLayout]
          omega
  | .Expression e, s, s2 => by
    intro h
    simp only [interpret_node, Except.map] at h
    split at h
    · exact Except.noConfusion h
    next p hp =>
      injection h with h
      subst h
      exact expression_len e s p.1 p.2 hp
  | .Variable n e, s, s2 => by
    intro h
    simp only [interpret_node, Except.map] at h
    split at h
    · exact Except.noConfusion h
    next p hp =>
      injection h with h
      subst h
      exact assignment_len n e s p.1 p.2 hp
  | .Block stmts, s, s2 => by
    intro h
    simp only [interpret_node] at h
    split at h
    · exact Except.noConfusion h
    next sb hlist =>
      have h1 := interpret_list_len stmts _ sb hlist
      injection h with h
      subst h
      exact h1
  | .If e t f, s, s2 => by
    intro h
    simp only [interpret_node] at h
    split at h
    · exact Except.noConfusion h
    next r1 s1 hcond =>
      have h1 := expression_len e s r1 s1 hcond
      simp only [emit_instr_ok] at h
      split at h
      · exact Except.noConfusion h
      next s3 helse =>
        have h2 : s1.bytecode.length + 2 ≤ s3.bytecode.length := by
          have h0 : ((entryFix s1).bytecode ++
              emitLayout .JmpIf (.V (.VAddr 0)) (.V .Nil) (.V .Nil)).length ≤
              s3.bytecode.length :=
            interpret_opt_len f _ s3 helse
          simp [entryFix_bytecode, emitLayout] at h0
          omega
        split at h
        · exact Except.noConfusion h
        next s6 hthen =>
          have h3 : ((entryFix s3).bytecode ++
              emitLayout .Jmp (.V (.VAddr 0)) (.V .Nil) (.V .Nil)).length ≤
              s6.bytecode.length :=
            interpret_node_len t _ s6 hthen
          simp [entryFix_bytecode, emitLayout] at h3
          simp only [Except.ok.injEq] at h
          subst h
          simp [List.length_set]
          omega
  | .Return e, s, s2 => by
    intro h
    simp only [interpret_node] at h
    exact ret_len e s s2 h
  | .While e b, s, s2 => by
    intro h
    simp only [interpret_node, emit_instr_ok] at h
    split at h
    · exact Except.noConfusion h
    next sb hbody =>
      have h1 : ((entryFix s).bytecode ++
          emitLayout .Jmp (.V (.VAddr 0)) (.V .Nil) (.V .Nil)).length ≤
          sb.bytecode.length :=
        interpret_node_len b _ sb hbody
      simp [entryFix_bytecode, emitLayout] at h1
      split at h
      · exact Except.noConfusion h
      next r3 s3 hcond =>
        have h2 : sb.bytecode.length ≤ s3.bytecode.length :=
          expression_len e { sb with reg_counter := s.reg_counter } r3 s3 hcond
        simp only [emit_instr_ok, Except.ok.injEq] at h
        subst h
        simp [entryFix_bytecode, List.length_set, emitLayout]
        omega
  | .Print e, s, s2 => by
    intro h
    simp only [interpret_node] at h
    exact print_len e s s2 h

theorem interpret_opt_len : ∀ (f : Option Stmt) (s s2 : Codegen),
    interpret_opt f s = .ok s2 → s.bytecode.length ≤ s2.bytecode.length
  | none, s, s2 => by
    intro h
    simp only [interpret_opt] at h
    injection h with h
    subst h
    exact le_refl _
  | some x, s, s2 => by
    intro h
    simp only [interpret_opt] at h
    exact interpret_node_len x s s2 h

theorem interpret_list_len : ∀ (nodes : List Stmt) (s s2 : Codegen),
    interpret_list nodes s = .ok s2 → s.bytecode.length ≤ s2.bytecode.length
  | [], s, s2 => by
    intro h
    simp only [interpret_list] at h
    injection h with h
    subst h
    exact le_refl _
  | n :: rest, s, s2 => by
    intro h
    simp only [interpret_list] at h
    split at h
    · exact Except.noConfusion h
    next s1 hn =>
      have h1 := interpret_node_len n s s1 hn
      have h2 := interpret_list_len rest s1 s2 h
      omega

end

end Codegen

namespace Codegen



theorem leaf_expression_shape (e : Expr) (s : Codegen) (r : Nat)
    (s2 : Codegen) (hl : leafOperand e = true)
    (h : expression e s = .ok (r, s2)) :
    ∃ (i : Instr) (a b : Value),
      s2.bytecode = s.bytecode ++ [.I i, .V a, .V b] := by
  cases e with
  | Variable name =>
    simp only [expression, get_next_reg] at h
    split at h
    · exact Except.noConfusion h
    next index hidx =>
      simp only [emit_instr_ok, Except.map, Except.ok.injEq,
        Prod.mk.injEq] at h
      obtain ⟨h3, h4⟩ := h
      subst h4
      exact ⟨.LoadP, .Reg s.reg_counter, .Pool index,
        by simp [entryFix_bytecode, emitLayout]⟩
  | Literal lit =>
    cases lit with
    | Number n =>
      simp only [expression, get_next_reg, emit_instr_ok, Except.map,
        Except.ok.injEq, Prod.mk.injEq] at h
      obtain ⟨h3, h4⟩ := h
      subst h4
      exact ⟨.LoadI, .Reg s.reg_counter, .Number n,
        by simp [entryFix_bytecode, emitLayout]⟩
    | StringLiteral str =>
      simp only [expression, get_next_reg, get_next_const, emit_instr_ok,
        Except.map, Except.ok.injEq, Prod.mk.injEq] at h
      obtain ⟨h3, h4⟩ := h
      subst h4
      exact ⟨.LoadC, .Reg s.reg_counter, .CPool s.const_counter,
        by simp [entryFix_bytecode, emitLayout]⟩
    | True => simp [leafOperand] at hl
    | False => simp [leafOperand] at hl
    | Nil => simp [leafOperand] at hl
  | Assignment a b => simp [leafOperand] at hl
  | Binary a o b => simp [leafOperand] at hl
  | Call a b => simp [leafOperand] at hl
  | Grouping a => simp [leafOperand] at hl
  | Logical a o b => simp [leafOperand] at hl
  | Unary o a => simp [leafOperand] at hl

theorem binary_leaf_shape (l rr : Expr) (op : Token) (s : Codegen)
    (res : Nat) (s2 : Codegen) (hl : leafOperand l = true)
    (hr : leafOperand rr = true)
    (h : expression (.Binary l op rr) s = .ok (res, s2)) :
    s2.bytecode.length = s.bytecode.length + 10 ∧
    ∃ i : Instr, s2.bytecode.get? s.bytecode.length = some (.I i) := by
  simp only [expression, get_next_reg] at h
  split at h
  · exact Except.noConfusion h
  next r1 s1 hleft =>
    split at h
    · exact Except.noConfusion h
    next r2 sb hright =>
      obtain ⟨i1, a1, b1, e1⟩ := leaf_expression_shape l s r1 s1 hl hleft
      obtain ⟨i2, a2, b2, e2⟩ := leaf_expression_shape rr s1 r2 sb hr hright
      split at h <;>
        first
        | exact Except.noConfusion h
        | (simp only [emit_instr_ok, Except.map, Except.ok.injEq,
             Prod.mk.injEq] at h
           obtain ⟨h3, h4⟩ := h
           subst h4
           constructor
           · simp [entryFix_bytecode, emitLayout, e1, e2]
           · refine ⟨i1, ?_⟩
             simp [entryFix_bytecode, emitLayout, e1, e2,
               List.append_assoc, List.get?_append_right,
               List.getElem_append_right, Nat.sub_self])

end Codegen

/-- C1 (amended), proved part: for every while statement whose condition
is a binary node over two leaf operands (identifier, number literal or
string literal — the shape every §8 example uses, lowering to exactly 10
slots), whenever codegen accepts it the patched initial forward `Jmp`
does land on the first instruction of the condition code, which holds an
opcode tag.  `condStart` is the index where condition emission began:
the condition's 10 slots plus the trailing `JmpIf`'s 2 sit above it, and
the patched operand is exactly `condStart` minus the post-operand IP. -/
theorem C1_while_leaf_condition_jump (l r : Expr) (op : Token) (body : Stmt)
    (s s2 : Codegen)
    (hl : Codegen.leafOperand l = true) (hr : Codegen.leafOperand r = true)
    (h : Codegen.interpret_node (.While (.Binary l op r) body) s = .ok s2) :
    ∃ condStart : Nat,
      s.bytecode.length + 2 ≤ condStart ∧
      condStart + 12 = s2.bytecode.length ∧
      s2.bytecode.get? (s.bytecode.length + 1) =
        some (.V (.VAddr ((condStart : Int) - (s.bytecode.length + 2)))) ∧
      isOpcodeSlot s2.bytecode condStart = true := by
  simp only [Codegen.interpret_node, Codegen.emit_instr_ok] at h
  split at h
  · exact Except.noConfusion h
  next sb hbody =>
    have h1 : ((Codegen.entryFix s).bytecode ++
        Codegen.emitLayout .Jmp (.V (.VAddr 0)) (.V .Nil) (.V .Nil)).length ≤
        sb.bytecode.length :=
      Codegen.interpret_node_len body _ sb hbody
    simp [Codegen.entryFix_bytecode, Codegen.emitLayout] at h1
    split at h
    · exact Except.noConfusion h
    next r3 s3 hcond =>
      have hbl := Codegen.binary_leaf_shape l r op
        { sb with reg_counter := s.reg_counter } r3 s3 hl hr hcond
      have hL : s3.bytecode.length = sb.bytecode.length + 10 := hbl.1
      obtain ⟨i0, hG0⟩ := hbl.2
      have hG : s3.bytecode.get? sb.bytecode.length = some (.I i0) := hG0
      simp only [Except.ok.injEq] at h
      subst h
      refine ⟨sb.bytecode.length, h1, ?_, ?_, ?_⟩
      · simp [List.length_set, Codegen.entryFix_bytecode,
          Codegen.emitLayout]
        omega
      · rw [List.get?_set_eq_of_lt]
        · simp only [Codegen.entryFix_bytecode, List.length_append,
            Codegen.emitLayout, Option.some.injEq, BcArr.V.injEq,
            Value.VAddr.injEq, List.length_cons, List.length_nil]
          push_cast
          omega
        · simp [Codegen.entryFix_bytecode, Codegen.emitLayout]
          omega
      · have hne : s.bytecode.length + 1 ≠ sb.bytecode.length := by omega
        simp only [isOpcodeSlot, List.get?_set_ne _ _ hne,
          Codegen.entryFix_bytecode]
        rw [List.get?_append
          (show sb.bytecode.length < s3.bytecode.length by omega)]
        rw [hG]


/-- Witness for `C1_while_leaf_condition_jump` at `while (1 < 2) { }`:
the condition starts at slot 2, the patched operand is `VAddr 0`
(landing exactly there from post-operand IP 2), and slot 2 holds the
`LoadI` opcode. -/
theorem C1_while_leaf_condition_jump_witness :
    ∃ condStart : Nat,
      cgInit.bytecode.length + 2 ≤ condStart ∧
      condStart + 12 = cgW.bytecode.length ∧
      cgW.bytecode.get? (cgInit.bytecode.length + 1) =
        some (.V (.VAddr ((condStart : Int) - (cgInit.bytecode.length + 2)))) ∧
      isOpcodeSlot cgW.bytecode condStart = true :=
  C1_while_leaf_condition_jump (numLit 1) (numLit 2) tkLess (.Block [])
    cgInit cgW rfl rfl rfl

/-- C1 counterexample.  `astC1` (`var i = 0; while (i < 3 + 1) { i = i + 1; }`)
is accepted by codegen, but its while condition lowers to 17 slots, not
the 10 the patch constant `-13` assumes.  The patched forward `Jmp` at
slot 6 carries `VAddr 20`; applied per §4.1 semantics from the
post-operand IP 8 (through the VM's exact cast chain) it reaches slot
28, which is the operand `Reg 4` — not an opcode slot, and not the first
instruction of the condition (slot 21). -/
theorem C1_counterexample :
    Codegen.bytecode_gen astC1 = .ok progC1 ∧
    progC1.bytecode.get? 6 = some (.I .Jmp) ∧
    progC1.bytecode.get? 7 = some (.V (.VAddr 20)) ∧
    isizeToUsize ((8 : Int) + usizeToIsize (isizeToUsize 20)) = 28 ∧
    isOpcodeSlot progC1.bytecode 28 = false ∧
    progC1.bytecode.get? 28 = some (.V (.Reg 4)) ∧
    progC1.bytecode.get? 21 = some (.I .LoadP) :=
  ⟨rfl, rfl, rfl, rfl, rfl, rfl, rfl⟩

/-- C2 (amended): a VM write at `i` less than the sequence length
overwrites in place; a write at `i` equal to the length appends; and a
write at `i` greater than the length is NOT a fatal runtime error — the
value is silently appended at index `length`, so no slot `i` exists
afterwards.  This holds uniformly for the register file, the local pool
and the argument pool. -/
theorem C2_insert_grow_or_overwrite (xs : List Value) (i : Nat) (v : Value) :
    (i < xs.length →
      Interpreter.register_insert xs i v = xs.set i v ∧
      Interpreter.pool_insert xs i v = xs.set i v ∧
      Interpreter.args_insert xs i v = xs.set i v) ∧
    (xs.length ≤ i →
      Interpreter.register_insert xs i v = xs ++ [v] ∧
      Interpreter.pool_insert xs i v = xs ++ [v] ∧
      Interpreter.args_insert xs i v = xs ++ [v]) ∧
    (xs.length < i → (Interpreter.register_insert xs i v).get? i = none) := by
  unfold Interpreter.register_insert Interpreter.pool_insert
    Interpreter.args_insert
  refine ⟨fun h => ?_, fun h => ?_, fun h => ?_⟩
  · rw [if_pos (by omega)]
    exact ⟨rfl, rfl, rfl⟩
  · rw [if_neg (by omega)]
    exact ⟨rfl, rfl, rfl⟩
  · rw [if_neg (by omega)]
    refine List.get?_eq_none.mpr ?_
    simp
    omega

/-- Witness for `C2_insert_grow_or_overwrite`: writing index 5 of the
one-element register file appends at index 1 and leaves no slot 5. -/
theorem C2_insert_grow_or_overwrite_witness :
    Interpreter.register_insert [Value.Number 7] 5 (.Bool true) =
      [Value.Number 7, .Bool true] ∧
    (Interpreter.register_insert [Value.Number 7] 5 (.Bool true)).get? 5 =
      none :=
  ⟨((C2_insert_grow_or_overwrite [Value.Number 7] 5 (.Bool true)).2.1
      (by decide)).1,
   (C2_insert_grow_or_overwrite [Value.Number 7] 5 (.Bool true)).2.2
      (by decide)⟩

/-- C3 counterexample.  In
`function g(){ return 42; } function f(){ } g(); f();` the callee `f`
executes no return statement; immediately after its `Ret` transfers
control back (step 6 of the run), register 0 holds `Number 42` — `g`'s
stale return value — not the `Number(0.0)` the claim requires for a
callee that falls off the end of its body. -/
theorem C3_counterexample :
    Codegen.bytecode_gen astC3 = .ok progC3 ∧
    progC3.function_list.lookup "f" = some 7 ∧
    progC3.bytecode.get? 7 = some (.I .Ret) ∧
    Interpreter.stepN 5 vmStartC3 = .ok vmC3at5 ∧
    vmC3at5.ip = 7 ∧
    vmC3at5.call_stack = [12] ∧
    Interpreter.execute_instr vmC3at5 = .ok vmC3at6 ∧
    vmC3at6.ip = 12 ∧
    vmC3at6.regs.get? 0 = some (.Number 42) ∧
    some (Value.Number 42) ≠ some (Value.Number 0) :=
  ⟨rfl, rfl, rfl, rfl, rfl, rfl, rfl, rfl, rfl, by decide⟩

/-- C3 (amended): `Ret` (like `Call`) never touches the register file,
so register 0 immediately after a callee's `Ret` is whatever was last
written to it: the lowering of `return e` ends with `LoadR` copying
`e`'s result register into register 0, a bare `return` loads
`Number(0.0)` into register 0, and a callee that executes no return
statement leaves register 0 at its prior value (not necessarily
`Number(0.0)`). -/
theorem C3_return_register_discipline :
    (∀ s s2 : Interpreter, Interpreter.ret s = .ok s2 →
      s2.regs = s.regs ∧ s2.local_pool = s.local_pool ∧
      s2.output = s.output ∧ s2.flag = s.flag) ∧
    (∀ (e : Expr) (s : Codegen) (v : Nat) (s1 : Codegen),
      Codegen.expression e s = .ok (v, s1) →
      ∃ s2, Codegen.ret (some e) s = .ok s2 ∧
        s2.bytecode = s1.bytecode ++ [.I .LoadR, .V (.Reg 0), .V (.Reg v)]) ∧
    (∀ s : Codegen, ∃ s2, Codegen.ret none s = .ok s2 ∧
      s2.bytecode = s.bytecode ++ [.I .LoadI, .V (.Reg 0), .V (.Number 0)]) ∧
    (∀ (regs : List Value) (val : Value), regs ≠ [] →
      (Interpreter.register_insert regs 0 val).get? 0 = some val) := by
  refine ⟨?_, ?_, ?_, ?_⟩
  · intro s s2 h
    unfold Interpreter.ret at h
    split at h
    · exact Except.noConfusion h
    · injection h with h
      subst h
      exact ⟨rfl, rfl, rfl, rfl⟩
  · intro e s v s1 hex
    refine ⟨{ Codegen.entryFix s1 with
        bytecode := (Codegen.entryFix s1).bytecode ++
          Codegen.emitLayout .LoadR (.V (.Reg v)) (.V .Nil) (.V (.Reg 0)) },
      ?_, ?_⟩
    · simp only [Codegen.ret, hex, Codegen.emit_instr_ok]
    · simp [Codegen.entryFix_bytecode, Codegen.emitLayout]
  · intro s
    refine ⟨{ Codegen.entryFix s with
        bytecode := (Codegen.entryFix s).bytecode ++
          Codegen.emitLayout .LoadI (.V (.Number 0)) (.V .Nil) (.V (.Reg 0)) },
      ?_, ?_⟩
    · simp only [Codegen.ret, Codegen.emit_instr_ok]
    · simp [Codegen.entryFix_bytecode, Codegen.emitLayout]
  · intro regs val h
    cases regs with
    | nil => exact absurd rfl h
    | cons a t => simp [Interpreter.register_insert]



/-- Witness for `C3_return_register_discipline`, instantiating every
conjunct at concrete inputs. -/
theorem C3_return_register_discipline_witness :
    (vmRetB.regs = vmRetA.regs ∧ vmRetB.local_pool = vmRetA.local_pool ∧
     vmRetB.output = vmRetA.output ∧ vmRetB.flag = vmRetA.flag) ∧
    (∃ s2, Codegen.ret (some (numLit 7)) cgInit = .ok s2 ∧
      s2.bytecode = [.I .LoadI, .V (.Reg 1), .V (.Number 7)] ++
        [.I .LoadR, .V (.Reg 0), .V (.Reg 1)]) ∧
    (∃ s2, Codegen.ret none cgInit = .ok s2 ∧
      s2.bytecode = ([] : List BcArr) ++
        [.I .LoadI, .V (.Reg 0), .V (.Number 0)]) ∧
    (Interpreter.register_insert [.Number 0] 0 (.Number 42)).get? 0 =
      some (.Number 42) :=
  ⟨C3_return_register_discipline.1 vmRetA vmRetB rfl,
   C3_return_register_discipline.2.1 (numLit 7) cgInit 1
     ({ cgInit with
        bytecode := [.I .LoadI, .V (.Reg 1), .V (.Number 7)],
        reg_counter := 2, entry_point := some 0 }) rfl,
   C3_return_register_discipline.2.2.1 cgInit,
   C3_return_register_discipline.2.2.2 [.Number 0] (.Number 42)
     (by decide)⟩

/-- C4: `Add Reg(res), Reg(r1), Reg(r2)` adds two Numbers; concatenates
(using the decimal textual form of the number) for number/string,
string/number and string/string operands; and is a fatal runtime error,
reporting the post-operand IP, for every other combination of operand
kinds. -/
theorem C4_add_semantics (s : Interpreter) (res r1 r2 : Nat) (v1 v2 : Value)
    (hb0 : s.bytecode.get? s.ip = some (.V (.Reg res)))
    (hb1 : s.bytecode.get? (s.ip + 1) = some (.V (.Reg r1)))
    (hb2 : s.bytecode.get? (s.ip + 2) = some (.V (.Reg r2)))
    (hr1 : s.regs.get? r1 = some v1)
    (hr2 : s.regs.get? r2 = some v2) :
    (∀ a b, v1 = .Number a → v2 = .Number b →
      Interpreter.add s = .ok { s with
        ip := s.ip + 3,
        regs := Interpreter.register_insert s.regs res (.Number (a + b)) }) ∧
    (∀ a b, v1 = .Number a → v2 = .StringLiteral b →
      Interpreter.add s = .ok { s with
        ip := s.ip + 3,
        regs := Interpreter.register_insert s.regs res
          (.StringLiteral (numToString a ++ b)) }) ∧
    (∀ a b, v1 = .StringLiteral a → v2 = .Number b →
      Interpreter.add s = .ok { s with
        ip := s.ip + 3,
        regs := Interpreter.register_insert s.regs res
          (.StringLiteral (a ++ numToString b)) }) ∧
    (∀ a b, v1 = .StringLiteral a → v2 = .StringLiteral b →
      Interpreter.add s = .ok { s with
        ip := s.ip + 3,
        regs := Interpreter.register_insert s.regs res
          (.StringLiteral (a ++ b)) }) ∧
    ((Interpreter.check_num v1 = false ∧ Interpreter.check_str v1 = false) ∨
     (Interpreter.check_num v2 = false ∧ Interpreter.check_str v2 = false) →
      Interpreter.add s = .error (.addTypeError (s.ip + 3))) := by
  refine ⟨?_, ?_, ?_, ?_, ?_⟩
  · intro a b h1 h2
    subst h1; subst h2
    simp only [Interpreter.add, Interpreter.fetch_register,
      Interpreter.fetch_val, Interpreter.unpack_register, hb0, hb1, hb2,
      hr1, hr2]
  · intro a b h1 h2
    subst h1; subst h2
    simp only [Interpreter.add, Interpreter.fetch_register,
      Interpreter.fetch_val, Interpreter.unpack_register, hb0, hb1, hb2,
      hr1, hr2]
  · intro a b h1 h2
    subst h1; subst h2
    simp only [Interpreter.add, Interpreter.fetch_register,
      Interpreter.fetch_val, Interpreter.unpack_register, hb0, hb1, hb2,
      hr1, hr2]
  · intro a b h1 h2
    subst h1; subst h2
    simp only [Interpreter.add, Interpreter.fetch_register,
      Interpreter.fetch_val, Interpreter.unpack_register, hb0, hb1, hb2,
      hr1, hr2]
  · intro h
    rcases h with ⟨hn, hs⟩ | ⟨hn, hs⟩ <;>
      cases v1 <;> cases v2 <;>
        simp_all [Interpreter.add, Interpreter.fetch_register,
          Interpreter.fetch_val, Interpreter.unpack_register,
          Interpreter.check_num, Interpreter.check_str]


/-- Witness for `C4_add_semantics`: `1 + "a"` stores the string `"1a"`. -/
theorem C4_add_semantics_witness :
    Interpreter.add vmC4 = .ok { vmC4 with
      ip := 3,
      regs := Interpreter.register_insert vmC4.regs 2
        (.StringLiteral ("1" ++ "a")) } :=
  (C4_add_semantics vmC4 2 0 1 (.Number 1) (.StringLiteral "a")
    rfl rfl rfl rfl rfl).2.1 1 "a" rfl rfl


/-- C6 (amended): of the §6 comparison operators, `<`, `<=`, `>`, `>=`
and `==` lower to the corresponding `Cmp` instruction and succeed, but
`!=` is rejected by codegen with the fatal "Operator not supported"
panic (no `CmpNEq` opcode exists); logical `&&`/`||` nodes — and unary
nodes — are rejected with the fatal "Expression not yet implemented"
panic. -/
theorem C6_comparison_lowering :
    (∀ (l r : Expr) (op : Token) (s s1 s2 : Codegen) (r1 r2 : Nat)
       (ci : Instr),
      Codegen.expression l s = .ok (r1, s1) →
      Codegen.expression r s1 = .ok (r2, s2) →
      cmpInstrOf op.t_type = some ci →
      (Codegen.expression (.Binary l op r) s).map
          (fun p => (p.1, p.2.bytecode)) =
        .ok (s2.reg_counter, s2.bytecode ++
          [.I ci, .V (.Reg s2.reg_counter), .V (.Reg r1), .V (.Reg r2)])) ∧
    (∀ (l r : Expr) (op : Token) (s s1 s2 : Codegen) (r1 r2 : Nat),
      Codegen.expression l s = .ok (r1, s1) →
      Codegen.expression r s1 = .ok (r2, s2) →
      op.t_type = .NEqual →
      Codegen.expression (.Binary l op r) s = .error .opNotSupported) ∧
    (∀ (a : Expr) (lop : LogicalOp) (b : Expr) (s : Codegen),
      Codegen.expression (.Logical a lop b) s = .error .exprNotImplemented) ∧
    (∀ (t : Token) (a : Expr) (s : Codegen),
      Codegen.expression (.Unary t a) s = .error .exprNotImplemented) := by
  refine ⟨?_, ?_, ?_, ?_⟩
  · intro l r op s s1 s2 r1 r2 ci hl hr hci
    obtain ⟨tt, tv, tl⟩ := op
    dsimp only at hci ⊢
    cases tt <;> simp only [cmpInstrOf, Option.some.injEq,
        reduceCtorEq] at hci <;>
      subst hci <;>
      simp [Codegen.expression, hl, hr, Codegen.get_next_reg,
        Codegen.emit_instr_ok, Codegen.entryFix_bytecode,
        Codegen.emitLayout, Except.map]
  · intro l r op s s1 s2 r1 r2 hl hr hop
    obtain ⟨tt, tv, tl⟩ := op
    dsimp only at hop
    subst hop
    simp [Codegen.expression, hl, hr, Codegen.get_next_reg]
  · intro a lop b s
    simp [Codegen.expression]
  · intro t a s
    simp [Codegen.expression]

/-- Witness for `C6_comparison_lowering`, instantiating every conjunct:
`1 < 2` lowers to `CmpLT`, `1 != 2`, `1 && 2` and `-1` are rejected. -/
theorem C6_comparison_lowering_witness :
    ((Codegen.expression (.Binary (numLit 1) tkLess (numLit 2)) cgInit).map
        (fun p => (p.1, p.2.bytecode)) =
      .ok (3,
        [.I .LoadI, .V (.Reg 1), .V (.Number 1),
         .I .LoadI, .V (.Reg 2), .V (.Number 2)] ++
        [.I .CmpLT, .V (.Reg 3), .V (.Reg 1), .V (.Reg 2)])) ∧
    Codegen.expression (.Binary (numLit 1) tkNEq (numLit 2)) cgInit =
      .error .opNotSupported ∧
    Codegen.expression (.Logical (numLit 1) .And (numLit 2)) cgInit =
      .error .exprNotImplemented ∧
    Codegen.expression
        (.Unary { t_type := .Minus, value := "-", line_num := 1 }
          (numLit 1)) cgInit =
      .error .exprNotImplemented :=
  ⟨C6_comparison_lowering.1 (numLit 1) (numLit 2) tkLess cgInit
     ({ cgInit with
        bytecode := [.I .LoadI, .V (.Reg 1), .V (.Number 1)],
        reg_counter := 2, entry_point := some 0 })
     ({ cgInit with
        bytecode :=
          [.I .LoadI, .V (.Reg 1), .V (.Number 1),
           .I .LoadI, .V (.Reg 2), .V (.Number 2)],
        reg_counter := 3, entry_point := some 0 })
     1 2 .CmpLT rfl rfl rfl,
   C6_comparison_lowering.2.1 (numLit 1) (numLit 2) tkNEq cgInit
     ({ cgInit with
        bytecode := [.I .LoadI, .V (.Reg 1), .V (.Number 1)],
        reg_counter := 2, entry_point := some 0 })
     ({ cgInit with
        bytecode :=
          [.I .LoadI, .V (.Reg 1), .V (.Number 1),
           .I .LoadI, .V (.Reg 2), .V (.Number 2)],
        reg_counter := 3, entry_point := some 0 })
     1 2 rfl rfl rfl,
   C6_comparison_lowering.2.2.1 (numLit 1) .And (numLit 2) cgInit,
   C6_comparison_lowering.2.2.2
     { t_type := .Minus, value := "-", line_num := 1 } (numLit 1) cgInit⟩

/-- C9: looking up a name with no live pool entry (never declared, or
declared only in an already-exited block, whose entries `clear_depth`
removed) hits the fatal "Variable does not exist" panic; both the
identifier-reference arm and the assignment arm of `expression` funnel
into it, and `bytecode_gen` propagates the failure, so no `Program` is
returned.  (The spec's §4.1 failure-mode list omits this case.) -/
theorem C9_undeclared_variable_fatal (name : Token) (s : Codegen)
    (h : ∀ v ∈ s.pool, v.name ≠ name.value) :
    Codegen.get_pool s.pool name.value = .error .varNotFound ∧
    Codegen.expression (.Variable name) s = .error .varNotFound ∧
    (∀ e : Expr,
      ∃ er : CgErr, Codegen.expression (.Assignment name e) s = .error er) ∧
    (∀ n2 : Token,
      Codegen.bytecode_gen [.Expression (.Variable n2)] =
        .error .varNotFound) := by
  have hfil : s.pool.filter (fun v => v.name == name.value) = [] := by
    rw [List.filter_eq_nil_iff]
    intro v hv
    simpa using h v hv
  have hg : Codegen.get_pool s.pool name.value = .error .varNotFound := by
    simp [Codegen.get_pool, hfil]
  refine ⟨hg, ?_, ?_, ?_⟩
  · simp [Codegen.expression, hg]
  · intro e
    cases he : Codegen.expression e s with
    | error er => exact ⟨er, by simp [Codegen.expression, he]⟩
    | ok p =>
      obtain ⟨ri, s1⟩ := p
      have hp : s1.pool = s.pool := Codegen.expression_pool e s ri s1 he
      refine ⟨.varNotFound, ?_⟩
      have hg1 : Codegen.get_pool s1.pool name.value =
          .error .varNotFound := by
        rw [hp]; exact hg
      simp [Codegen.expression, he, hg1]
  · intro n2
    rfl

/-- Witness for `C9_undeclared_variable_fatal` at the undeclared name
`x` and the initial (empty-pool) codegen state. -/
theorem C9_undeclared_variable_fatal_witness :
    Codegen.get_pool cgInit.pool "x" = .error .varNotFound ∧
    Codegen.expression (.Variable (tkId "x")) cgInit =
      .error .varNotFound ∧
    (∃ er : CgErr, Codegen.expression
        (.Assignment (tkId "x") (numLit 1)) cgInit = .error er) ∧
    Codegen.bytecode_gen [.Expression (.Variable (tkId "x"))] =
      .error .varNotFound :=
  have main := C9_undeclared_variable_fatal (tkId "x") cgInit (by simp [cgInit])
  ⟨main.1, main.2.1, main.2.2.1 (numLit 1), main.2.2.2 (tkId "x")⟩

namespace Codegen

theorem position_spec (p : Vars → Bool) :
    ∀ (l : List Vars) (i : Nat), position p l = some i →
      ∃ h : i < l.length, p (l.get ⟨i, h⟩) = true
  | [], i => by
    intro h
    exact Option.noConfusion h
  | v :: rest, i => by
    intro h
    simp only [position] at h
    split at h
    next hp =>
      injection h with h
      subst h
      exact ⟨by simp, by simpa using hp⟩
    next hp =>
      rw [Option.map_eq_some'] at h
      obtain ⟨j, hj, hij⟩ := h
      obtain ⟨hlt, hpj⟩ := position_spec p rest j hj
      subst hij
      exact ⟨by simpa using Nat.succ_lt_succ hlt, by simpa using hpj⟩

theorem position_isSome (p : Vars → Bool) :
    ∀ l : List Vars, (∃ x ∈ l, p x = true) → ∃ i, position p l = some i
  | [] => by
    rintro ⟨x, hx, _⟩
    exact absurd hx (by simp)
  | v :: rest => by
    rintro ⟨x, hx, hp⟩
    simp only [position]
    by_cases hv : p v
    · exact ⟨0, by simp [hv]⟩
    · rw [if_neg hv]
      have hex : ∃ x ∈ rest, p x = true := by
        rcases List.mem_cons.mp hx with rfl | hm
        · exact absurd hp hv
        · exact ⟨x, hm, hp⟩
      obtain ⟨j, hj⟩ := position_isSome p rest hex
      exact ⟨j + 1, by simp [hj]⟩

end Codegen


/-- C7: `get_pool` returns the index of a live entry carrying the looked
up name whose depth is maximal among all live entries with that name
(deepest shadowing wins); the lookup succeeds whenever any live entry
has the name; and consequently
`var x = 1; { var x = 2; print x; } print x;` prints `2` then `1`. -/
theorem C7_get_pool_shadowing :
    (∀ (pool : List Vars) (n : String) (i : Nat),
      Codegen.get_pool pool n = .ok i →
      ∃ hlt : i < pool.length,
        (pool.get ⟨i, hlt⟩).name = n ∧
        ∀ v ∈ pool, v.name = n → v.depth ≤ (pool.get ⟨i, hlt⟩).depth) ∧
    (∀ (pool : List Vars) (n : String) (v : Vars),
      v ∈ pool → v.name = n → ∃ i, Codegen.get_pool pool n = .ok i) ∧
    pipelineOutput astC7 100 = some ["2", "1"] := by
  refine ⟨?_, ?_, rfl⟩
  · intro pool n i h
    simp only [Codegen.get_pool] at h
    split at h
    · exact Except.noConfusion h
    split at h
    · exact Except.noConfusion h
    next mx hmx =>
      split at h
      next idx hpos =>
        injection h with h
        subst h
        obtain ⟨hlt, hp⟩ := Codegen.position_spec _ pool idx hpos
        simp only [Bool.and_eq_true, beq_iff_eq] at hp
        obtain ⟨hd, hn⟩ := hp
        refine ⟨hlt, hn, ?_⟩
        intro v hv hvn
        rw [hd]
        have hvf : v ∈ pool.filter (fun u => u.name == n) :=
          List.mem_filter.mpr ⟨hv, by simp [hvn]⟩
        have hmem : v.depth ∈
            (pool.filter (fun u => u.name == n)).map (fun u => u.depth) :=
          List.mem_map_of_mem _ hvf
        exact (List.max?_le_iff (fun _ _ _ => Nat.max_le) hmx).mp
          (le_refl mx) _ hmem
      · exact Except.noConfusion h
  · intro pool n v hv hvn
    have hvf : v ∈ pool.filter (fun u => u.name == n) :=
      List.mem_filter.mpr ⟨hv, by simp [hvn]⟩
    simp only [Codegen.get_pool]
    have hne : (pool.filter (fun u => u.name == n)).isEmpty = false := by
      cases hef : pool.filter (fun u => u.name == n) with
      | nil =>
        rw [hef] at hvf
        exact absurd hvf (by simp)
      | cons a t => rfl
    simp only [hne, Bool.false_eq_true, if_false]
    cases hq : ((pool.filter (fun u => u.name == n)).map
        (fun u => u.depth)).max? with
    | none =>
      rw [List.max?_eq_none_iff, List.map_eq_nil_iff] at hq
      rw [hq] at hvf
      exact absurd hvf (by simp)
    | some mx =>
      have hmem := List.max?_mem max_choice hq
      obtain ⟨u, huf, hud⟩ := List.mem_map.mp hmem
      have hu_pool : u ∈ pool := (List.mem_filter.mp huf).1
      have hu_name : u.name = n := by
        simpa using (List.mem_filter.mp huf).2
      obtain ⟨j, hj⟩ := Codegen.position_isSome
        (fun u => u.depth == mx && u.name == n) pool
        ⟨u, hu_pool, by simp [hud, hu_name]⟩
      refine ⟨j, ?_⟩
      simp only [hq, hj]

/-- Witness for `C7_get_pool_shadowing`: in a pool holding `x` at depth
0 and `x` at depth 1, the lookup returns index 1 — the deeper entry. -/
theorem C7_get_pool_shadowing_witness :
    (∃ hlt : 1 < ([⟨"x", 0⟩, ⟨"x", 1⟩] : List Vars).length,
      (([⟨"x", 0⟩, ⟨"x", 1⟩] : List Vars).get ⟨1, hlt⟩).name = "x" ∧
      ∀ v ∈ ([⟨"x", 0⟩, ⟨"x", 1⟩] : List Vars), v.name = "x" →
        v.depth ≤ (([⟨"x", 0⟩, ⟨"x", 1⟩] : List Vars).get ⟨1, hlt⟩).depth) ∧
    (∃ i, Codegen.get_pool [⟨"x", 0⟩, ⟨"x", 1⟩] "x" = .ok i) :=
  ⟨C7_get_pool_shadowing.1 [⟨"x", 0⟩, ⟨"x", 1⟩] "x" 1 rfl,
   C7_get_pool_shadowing.2.1 [⟨"x", 0⟩, ⟨"x", 1⟩] "x" ⟨"x", 1⟩
     (by decide) rfl⟩

namespace CompAi.AbstractInterpreter


theorem unhandledSum_cons (p : Nat × CompAi.Block)
    (t : List (Nat × CompAi.Block)) (handled : List Nat) :
    unhandledSum (p :: t) handled =
      (if p.1 ∈ handled then 0 else p.2.edges.length) +
        unhandledSum t handled := by
  by_cases h : p.1 ∈ handled <;>
    simp [unhandledSum, List.filter_cons, h]

theorem unhandledSum_cons_le (blocks : List (Nat × CompAi.Block))
    (id : Nat) (handled : List Nat) :
    unhandledSum blocks (id :: handled) ≤ unhandledSum blocks handled := by
  induction blocks with
  | nil => simp [unhandledSum]
  | cons p t ih =>
    rw [unhandledSum_cons, unhandledSum_cons]
    by_cases hB : p.1 ∈ handled
    · have hA : p.1 ∈ id :: handled := List.mem_cons_of_mem _ hB
      rw [if_pos hA, if_pos hB]
      omega
    · by_cases hA : p.1 ∈ id :: handled
      · rw [if_pos hA, if_neg hB]
        omega
      · rw [if_neg hA, if_neg hB]
        omega

theorem unhandledSum_lookup (blocks : List (Nat × CompAi.Block)) (id : Nat)
    (handled : List Nat) (b : CompAi.Block) (hid : id ∉ handled)
    (hb : blocks.lookup id = some b) :
    b.edges.length + unhandledSum blocks (id :: handled) ≤
      unhandledSum blocks handled := by
  induction blocks with
  | nil => exact Option.noConfusion hb
  | cons p t ih =>
    obtain ⟨k, bl⟩ := p
    rw [unhandledSum_cons, unhandledSum_cons]
    by_cases hk : id = k
    · subst hk
      simp only [List.lookup, beq_self_eq_true, Option.some.injEq] at hb
      subst hb
      have hidc : (id, bl).1 ∈ id :: handled := List.mem_cons_self id handled
      rw [if_pos hidc, if_neg hid]
      have := unhandledSum_cons_le t id handled
      have hE : ((id, bl) : Nat × CompAi.Block).2.edges.length =
          bl.edges.length := rfl
      omega
    · have hbk : (id == k) = false := by
        simp [hk]
      simp only [List.lookup, hbk] at hb
      have hrec := ih hb
      by_cases hkh : k ∈ handled
      · have hkc : (k, bl).1 ∈ id :: handled := List.mem_cons_of_mem _ hkh
        rw [if_pos hkc, if_pos hkh]
        omega
      · have hkc : (k, bl).1 ∉ id :: handled := by
          simp only [List.mem_cons]
          rintro (hc | hc)
          · exact hk hc.symm
          · exact hkh hc
        rw [if_neg hkc, if_neg hkh]
        omega

theorem runAux_total (cfg : CompAi.Cfg) :
    ∀ (fuel : Nat) (worklist handled : List Nat)
      (st : CompAi.AbstractInterpreter),
      worklist.length + unhandledSum cfg.blocks handled ≤ fuel →
      runAux cfg fuel worklist handled st ≠ none := by
  intro fuel
  induction fuel with
  | zero =>
    intro wl handled st hle
    cases wl with
    | nil => simp [runAux]
    | cons a t =>
      simp only [List.length_cons] at hle
      exact absurd hle (by omega)
  | succ n ih =>
    intro wl handled st hle
    cases wl with
    | nil => simp [runAux]
    | cons id rest =>
      simp only [runAux]
      by_cases hmem : id ∈ handled
      · rw [if_pos hmem]
        apply ih
        simp only [List.length_cons] at hle
        omega
      · rw [if_neg hmem]
        split
        next heq => simp
        next b heq =>
          split
          next er heq2 => simp
          next st1 heq2 =>
            apply ih
            have hdec := unhandledSum_lookup cfg.blocks id handled b hmem heq
            simp only [List.length_cons, List.length_append] at *
            omega

theorem runAux_nodup (cfg : CompAi.Cfg) :
    ∀ (fuel : Nat) (worklist handled : List Nat)
      (st st2 : CompAi.AbstractInterpreter) (processed : List Nat),
      handled.Nodup →
      runAux cfg fuel worklist handled st = some (.ok (st2, processed)) →
      processed.Nodup := by
  intro fuel
  induction fuel with
  | zero =>
    intro wl handled st st2 processed hnd h
    cases wl with
    | nil =>
      simp only [runAux, List.isEmpty_nil, if_true, Option.some.injEq,
        Except.ok.injEq, Prod.mk.injEq] at h
      rw [← h.2]
      exact hnd
    | cons a t =>
      simp only [runAux] at h
      exact Option.noConfusion h
  | succ n ih =>
    intro wl handled st st2 processed hnd h
    cases wl with
    | nil =>
      simp only [runAux, Option.some.injEq, Except.ok.injEq,
        Prod.mk.injEq] at h
      rw [← h.2]
      exact hnd
    | cons id rest =>
      simp only [runAux] at h
      by_cases hmem : id ∈ handled
      · rw [if_pos hmem] at h
        exact ih rest handled st st2 processed hnd h
      · rw [if_neg hmem] at h
        split at h
        next heq => simp at h
        next b heq =>
          split at h
          next er heq2 => simp at h
          next st1 heq2 =>
            exact ih (rest ++ b.edges) (id :: handled) st1 st2 processed
              (List.nodup_cons.mpr ⟨hmem, hnd⟩) h

end CompAi.AbstractInterpreter

/-- C8: the worklist loop of the abstract interpreter processes each CFG
block at most once (the ids it records are pairwise distinct whenever a
run completes), and with the fuel budget `fuelBound cfg` — one initial
entry plus one unit per successor edge in the CFG — the loop always
finishes (it never runs out of fuel), on cyclic CFGs included. -/
theorem C8_worklist_terminates :
    (∀ (cfg : CompAi.Cfg) (st : CompAi.AbstractInterpreter),
      CompAi.AbstractInterpreter.run cfg
        (CompAi.AbstractInterpreter.fuelBound cfg) st ≠ none) ∧
    (∀ (cfg : CompAi.Cfg) (fuel : Nat)
       (st st2 : CompAi.AbstractInterpreter) (processed : List Nat),
      CompAi.AbstractInterpreter.run cfg fuel st =
        some (.ok (st2, processed)) →
      processed.Nodup) := by
  constructor
  · intro cfg st
    apply CompAi.AbstractInterpreter.runAux_total
    have hle : CompAi.AbstractInterpreter.unhandledSum cfg.blocks [] ≤
        (cfg.blocks.map (fun p => p.2.edges.length)).sum := by
      simp [CompAi.AbstractInterpreter.unhandledSum]
    simp only [CompAi.AbstractInterpreter.fuelBound, List.length_cons,
      List.length_nil]
    omega
  · intro cfg fuel st st2 processed h
    exact CompAi.AbstractInterpreter.runAux_nodup cfg fuel [0] [] st st2
      processed List.nodup_nil h



/-- Witness for `C8_worklist_terminates` on the cyclic `cfgW`: the run
finishes within its fuel bound (4) and processes each block once. -/
theorem C8_worklist_terminates_witness :
    CompAi.AbstractInterpreter.run cfgW
      (CompAi.AbstractInterpreter.fuelBound cfgW) aiW ≠ none ∧
    CompAi.AbstractInterpreter.run cfgW 4 aiW =
      some (.ok (aiW, [1, 0])) ∧
    List.Nodup [1, 0] :=
  ⟨C8_worklist_terminates.1 cfgW aiW, rfl,
   C8_worklist_terminates.2 cfgW 4 aiW aiW [1, 0] rfl⟩


namespace CompAi.AbstractInterpreter

theorem fetch_val_bytecode (s t : AbstractInterpreter) (v : BcArr)
    (h : fetch_val s = .ok (v, t)) : t.bytecode = s.bytecode := by
  unfold fetch_val at h
  split at h
  · simp only [Except.ok.injEq, Prod.mk.injEq] at h
    rw [← h.2]
  · exact Except.noConfusion h

theorem fetch_val_at_bytecode (s t : AbstractInterpreter) (ip : Nat)
    (v : BcArr) (h : fetch_val_at s ip = .ok (v, t)) :
    t.bytecode = s.bytecode := by
  unfold fetch_val_at at h
  split at h
  · simp only [Except.ok.injEq, Prod.mk.injEq] at h
    rw [← h.2]
  · exact Except.noConfusion h

theorem loadi_bytecode (s t : AbstractInterpreter) (h : loadi s = .ok t) :
    t.bytecode = s.bytecode := by
  unfold loadi at h
  split at h
  · exact Except.noConfusion h
  rename_i reg s1 heq1
  split at h
  · exact Except.noConfusion h
  rename_i v s2 heq2
  split at h
  · exact Except.noConfusion h
  rename_i r heq3
  split at h
  · exact Except.noConfusion h
  rename_i valv heq4
  split at h
  · simp only [Except.ok.injEq] at h
    rw [← h]
    exact (fetch_val_bytecode s1 s2 v heq2).trans
      (fetch_val_bytecode s s1 reg heq1)
  · exact Except.noConfusion h

theorem pushp_bytecode (s t : AbstractInterpreter) (h : pushp s = .ok t) :
    t.bytecode = s.bytecode := by
  unfold pushp at h
  split at h
  · exact Except.noConfusion h
  rename_i pool s1 heq1
  split at h
  · exact Except.noConfusion h
  rename_i reg s2 heq2
  split at h
  · exact Except.noConfusion h
  rename_i r heq3
  split at h
  · exact Except.noConfusion h
  rename_i p heq4
  split at h
  · exact Except.noConfusion h
  · simp only [Except.ok.injEq] at h
    rw [← h]
    exact (fetch_val_bytecode s1 s2 reg heq2).trans
      (fetch_val_bytecode s s1 pool heq1)

theorem loadp_bytecode (s t : AbstractInterpreter) (h : loadp s = .ok t) :
    t.bytecode = s.bytecode := by
  unfold loadp at h
  split at h
  · exact Except.noConfusion h
  rename_i reg s1 heq1
  split at h
  · exact Except.noConfusion h
  rename_i pool s2 heq2
  split at h
  · exact Except.noConfusion h
  rename_i r heq3
  split at h
  · exact Except.noConfusion h
  rename_i p heq4
  split at h
  · exact Except.noConfusion h
  · simp only [Except.ok.injEq] at h
    rw [← h]
    exact (fetch_val_bytecode s1 s2 pool heq2).trans
      (fetch_val_bytecode s s1 reg heq1)

theorem cmpgt_bytecode (s t : AbstractInterpreter) (h : cmpgt s = .ok t) :
    t.bytecode = s.bytecode := by
  unfold cmpgt at h
  split at h
  · exact Except.noConfusion h
  rename_i res s1 heq1
  split at h
  · exact Except.noConfusion h
  rename_i v2 s2 heq2
  split at h
  · exact Except.noConfusion h
  rename_i v3 s3 heq3
  split at h
  · exact Except.noConfusion h
  · simp only [Except.ok.injEq] at h
    rw [← h]
    exact ((fetch_val_bytecode s2 s3 v3 heq3).trans
      (fetch_val_bytecode s1 s2 v2 heq2)).trans
      (fetch_val_bytecode s s1 res heq1)

theorem jmpif_bytecode (s t : AbstractInterpreter) (h : jmpif s = .ok t) :
    t.bytecode = s.bytecode := by
  unfold jmpif at h
  split at h
  · exact Except.noConfusion h
  rename_i v s1 heq1
  simp only [Except.ok.injEq] at h
  rw [← h]
  exact fetch_val_bytecode s s1 v heq1

theorem jmp_bytecode (s t : AbstractInterpreter) (h : jmp s = .ok t) :
    t.bytecode = s.bytecode := by
  unfold jmp at h
  split at h
  · exact Except.noConfusion h
  rename_i v s1 heq1
  simp only [Except.ok.injEq] at h
  rw [← h]
  exact fetch_val_bytecode s s1 v heq1

theorem add_bytecode (s t : AbstractInterpreter) (h : add s = .ok t) :
    t.bytecode = s.bytecode := by
  unfold add at h
  split at h
  · exact Except.noConfusion h
  rename_i v1 s1 heq1
  split at h
  · exact Except.noConfusion h
  rename_i v2 s2 heq2
  split at h
  · exact Except.noConfusion h
  rename_i v3 s3 heq3
  simp only [Except.ok.injEq] at h
  rw [← h]
  exact ((fetch_val_bytecode s2 s3 v3 heq3).trans
    (fetch_val_bytecode s1 s2 v2 heq2)).trans
    (fetch_val_bytecode s s1 v1 heq1)

theorem handle_label_bytecode (s t : AbstractInterpreter) (ip : Nat)
    (h : handle_label s ip = .ok t) : t.bytecode = s.bytecode := by
  unfold handle_label at h
  split at h
  · exact Except.noConfusion h
  rename_i op s1 heq0
  have h0 : s1.bytecode = s.bytecode :=
    fetch_val_at_bytecode s s1 ip op heq0
  split at h
  · exact (loadi_bytecode _ _ h).trans h0
  · exact (pushp_bytecode _ _ h).trans h0
  · exact (loadp_bytecode _ _ h).trans h0
  · exact (cmpgt_bytecode _ _ h).trans h0
  · exact (jmpif_bytecode _ _ h).trans h0
  · exact (jmp_bytecode _ _ h).trans h0
  · exact (add_bytecode _ _ h).trans h0
  · simp only [Except.ok.injEq] at h
    rw [← h]
    exact h0
  · exact Except.noConfusion h

theorem handle_label_unreachable (s : AbstractInterpreter) (ip : Nat)
    (i : Instr) (hslot : s.bytecode.get? ip = some (.I i))
    (hbad : aiHandles i = false) :
    handle_label s ip = .error .unreachableInstr := by
  unfold handle_label fetch_val_at
  rw [hslot]
  cases i <;> first
    | rfl
    | exact absurd hbad (by simp [aiHandles])

theorem handle_block_bad (instrs : List Nat) :
    ∀ (s : AbstractInterpreter) (ip : Nat) (i : Instr),
      ip ∈ instrs → s.bytecode.get? ip = some (.I i) →
      aiHandles i = false →
      ∃ er, handle_block s instrs = .error er := by
  induction instrs with
  | nil =>
    intro s ip i hmem _ _
    exact absurd hmem (List.not_mem_nil ip)
  | cons ip0 rest ih =>
    intro s ip i hmem hslot hbad
    unfold handle_block
    cases hl : handle_label { s with ip := ip0 } ip0 with
    | error er => exact ⟨er, rfl⟩
    | ok s1 =>
      rcases List.mem_cons.mp hmem with hip | hip
      · subst hip
        have hbc : ({ s with ip := ip } :
            AbstractInterpreter).bytecode.get? ip = some (.I i) := hslot
        have := handle_label_unreachable { s with ip := ip } ip i hbc hbad
        rw [this] at hl
        exact Except.noConfusion hl
      · have hb1 : s1.bytecode = s.bytecode :=
          handle_label_bytecode { s with ip := ip0 } s1 ip0 hl
        obtain ⟨er, her⟩ := ih s1 ip i hip (by rw [hb1]; exact hslot) hbad
        exact ⟨er, her⟩

end CompAi.AbstractInterpreter

/-- C10: the abstract interpreter's dispatcher hits the `unreachable!()`
panic on every opcode outside the eight it implements (LoadI, PushP,
LoadP, CmpGT, JmpIf, Jmp, Add, Print), a block containing such an opcode
makes `handle_block` abort, and because main.rs runs the abstract
interpreter before the VM, a run that panics aborts the pipeline before
any program output is produced. -/
theorem C10_unhandled_opcode_aborts :
    (∀ (s : CompAi.AbstractInterpreter) (ip : Nat) (i : Instr),
      s.bytecode.get? ip = some (.I i) → aiHandles i = false →
      CompAi.AbstractInterpreter.handle_label s ip =
        .error CompAi.AiErr.unreachableInstr) ∧
    (∀ (s : CompAi.AbstractInterpreter) (instrs : List Nat) (ip : Nat)
       (i : Instr),
      ip ∈ instrs → s.bytecode.get? ip = some (.I i) →
      aiHandles i = false →
      ∃ er, CompAi.AbstractInterpreter.handle_block s instrs = .error er) ∧
    (∀ (p : Program) (cfg : CompAi.Cfg) (aiFuel vmFuel : Nat)
       (e : CompAi.AiErr),
      CompAi.AbstractInterpreter.run cfg aiFuel
        (CompAi.AbstractInterpreter.new p) = some (.error e) →
      mainStages p cfg aiFuel vmFuel = .error e) := by
  refine ⟨?_, ?_, ?_⟩
  · intro s ip i hslot hbad
    exact CompAi.AbstractInterpreter.handle_label_unreachable s ip i hslot hbad
  · intro s instrs ip i hmem hslot hbad
    exact CompAi.AbstractInterpreter.handle_block_bad instrs s ip i hmem
      hslot hbad
  · intro p cfg aiFuel vmFuel e h
    unfold mainStages
    rw [h]



/-- Witness for `C10_unhandled_opcode_aborts` on `pSub`: dispatching the
`Sub` opcode panics, its block aborts, and the whole pipeline aborts with
the panic before producing output. -/
theorem C10_unhandled_opcode_aborts_witness :
    CompAi.AbstractInterpreter.handle_label
      (CompAi.AbstractInterpreter.new pSub) 0 =
        .error CompAi.AiErr.unreachableInstr ∧
    (∃ er, CompAi.AbstractInterpreter.handle_block
      (CompAi.AbstractInterpreter.new pSub) [0] = .error er) ∧
    mainStages pSub cfgSub 1 100 = .error CompAi.AiErr.unreachableInstr :=
  ⟨C10_unhandled_opcode_aborts.1 (CompAi.AbstractInterpreter.new pSub) 0
     .Sub rfl rfl,
   C10_unhandled_opcode_aborts.2.1 (CompAi.AbstractInterpreter.new pSub)
     [0] 0 .Sub (List.mem_singleton.mpr rfl) rfl rfl,
   C10_unhandled_opcode_aborts.2.2 pSub cfgSub 1 100
     CompAi.AiErr.unreachableInstr rfl⟩
